import Mathlib

/-!
# PiFace Digital web server

A shallow embedding of `src/server.cpp` and `src/utils.c`, and theorems about it.

Conventions of the embedding.

* A C string is the list of its characters before the terminating NUL.  Reading the
  position just after the last character gives NUL; reading anywhere else outside the
  text is undefined behaviour and is reported as a fault.
* A C `int` is held as its 32-bit two's-complement pattern, a natural number below
  `2 ^ 32`; arithmetic wraps with an explicit `% 4294967296`.  File descriptors, which
  are compared with `-1` and tested with `< 0`, are integers.
* The arrays `event_stream[10]`, `event_waiting[10]` and `output[8]` are total functions
  on `Fin 10` and `Fin 8`.  A loop `for (i = 0; i < N; i++)` is a recursion over the list
  of the indices `0 .. N-1` in increasing order.
* What the outside world decides (whether a `write` succeeds, which value the input
  register holds, what a file contains) is a parameter of the function that asks for it.
* `pthread_exit` unwinds the stack of the calling thread: a `catch (...)` block on the
  way runs (and rethrows), a `catch (exception &)` block does not.
* Every function runs as one atomic step; the interleaving of threads is the order in
  which such steps are applied to the shared state.
-/

namespace PiFace

/-! ## C values -/

/-- The terminating character of a C string. -/
def NUL : Char := Char.ofNat 0

/-- Difference `a - b` of two characters promoted to `int`, as a 32-bit pattern
(the expression `(*ptr) - '0'`). -/
def char_sub (a b : Char) : Nat := (a.toNat + 4294967296 - b.toNat) % 4294967296

/-- Left shift `x << n` of an `int`: defined for a shift count from 0 to 31, where the
result wraps to 32 bits; any other count (a negative one is a pattern of at least
`2 ^ 31`) is undefined behaviour. -/
def shl (x n : Nat) : Option Nat :=
  if n < 32 then some ((x <<< n) % 4294967296) else none

/-- Bitwise complement `~x` of a 32-bit pattern. -/
def bit_not (x : Nat) : Nat := x ^^^ 4294967295

/-- Character at position `i` of a C string: a character of the text, the terminating
NUL at position `length`, nothing (a read outside the string) beyond. -/
def peek (a : List Char) (i : Nat) : Option Char :=
  if i < a.length then a.get? i else if i = a.length then some NUL else none

/-- The C string held by a byte buffer: the bytes before the first NUL. -/
def cstr (bytes : List Char) : List Char := bytes.takeWhile (fun c => c ≠ NUL)

/-- Decimal text of an `int`, as `sprintf` prints it for `%d`. -/
def decimal (n : Int) : List Char := (toString n).toList

/-! ## `utils.c` -/

/-- Source `test_lead_string (a, b)`: 1 when `b` matches the start of `a`, else 0. -/
def test_lead_string : List Char → List Char → Int
  | _, [] => 1
  | [], _ :: _ => 0
  | p :: ps, q :: qs => if p ≠ q then 0 else test_lead_string ps qs

/-- Loop of `test_in_string`: `k` is the offset `p - a` of the remaining text. -/
def test_in_string_from (b : List Char) : List Char → Nat → Int
  | [], _ => -1
  | p :: ps, k =>
    if test_lead_string (p :: ps) b ≠ 0 then (k : Int) else test_in_string_from b ps (k + 1)

/-- Source `test_in_string (a, b)`: offset of the first occurrence of `b` in `a`, or -1. -/
def test_in_string (a b : List Char) : Int := test_in_string_from b a 0

/-- Backward loop of `test_tail_string`.  The arguments are the characters of `a` to the
left of `p` and of `b` to the left of `q`, nearest first, at a moment when `q` is not yet
at the start of `b` and both pointers are about to be decremented.  When nothing of `a`
is left, `p` moves before the start of `a` and the next `*p` reads outside the string. -/
def test_tail_loop : List Char → List Char → Option Int
  | _, [] => some 1
  | [], _ :: _ => none
  | x :: _, [y] => if x ≠ y then some 0 else some 1
  | x :: ra, y :: y2 :: rb => if x ≠ y then some 0 else test_tail_loop ra (y2 :: rb)

/-- Source `test_tail_string (a, b)`: both pointers run to the terminating NULs, which
compare equal; if `b` is empty `q == b` holds at once, otherwise the backward loop runs.
The result is `none` when the loop reads before the start of `a`. -/
def test_tail_string (a b : List Char) : Option Int :=
  match b with
  | [] => some 1
  | _ :: _ => test_tail_loop a.reverse b.reverse

/-- Loop of `write_binary`: `k` iterations remain and `mask` is the current mask. -/
def write_binary_loop (n : Nat) : Nat → Nat → List Char
  | 0, _ => []
  | k + 1, mask =>
    (if n &&& mask ≠ 0 then '1' else '0') ::
      write_binary_loop n k ((mask <<< 1) % 4294967296)

/-- Source `write_binary (n, a, length)`: the characters written to `a`. -/
def write_binary (n length : Nat) : List Char := write_binary_loop n length 1

/-! ## Shared state of `server.cpp` -/

/-- The global variables of the server, the output register of the device, the bytes
written to sockets and the descriptors closed so far. -/
structure State where
  /-- Array `event_stream[MAX_EVENT_STREAM]`: the handle in each slot, negative when free. -/
  event_stream : Fin 10 → Int
  /-- Array `event_waiting[MAX_EVENT_STREAM]`: the dirty flag of each slot. -/
  event_waiting : Fin 10 → Bool
  /-- Array `output[8]`: the master copy of the output bits, as characters. -/
  output : Fin 8 → Char
  /-- Variable `pif_input`. -/
  pif_input : Nat
  /-- Variable `pif_output`. -/
  pif_output : Nat
  /-- Output register of the PiFace: the byte last given to `pifacedigital_write_reg`. -/
  device : Nat
  /-- Every successful `write`, oldest first: the descriptor and the bytes. -/
  wire : List (Int × List Char)
  /-- Descriptors given to `close`, oldest first. -/
  closed : List Int

/-- The slot indices `0 .. MAX_EVENT_STREAM - 1` in the order the loops visit them. -/
def slot_indices : List (Fin 10) := [0, 1, 2, 3, 4, 5, 6, 7, 8, 9]

/-- The indices `0 .. 7` of `output[8]` in loop order. -/
def bit_indices : List (Fin 8) := [0, 1, 2, 3, 4, 5, 6, 7]

/-- The eight characters of the master output string `output[0] .. output[7]`. -/
def output_text (s : State) : List Char := bit_indices.map s.output

/-- The globals as the loader leaves them (static storage is zeroed). -/
def boot : State :=
  { event_stream := fun _ => 0, event_waiting := fun _ => false, output := fun _ => NUL,
    pif_input := 0, pif_output := 0, device := 0, wire := [], closed := [] }

/-- Source `initialise`: zero `pif_output`, free every slot, clear every flag, zero the
master output string. -/
def initialise (s : State) : State :=
  { s with
    pif_output := 0
    event_stream := fun _ => -1
    event_waiting := fun _ => false
    output := fun _ => NUL }

/-- How a call ends. -/
inductive Outcome (α : Type) where
  /-- The call returned `a` to its caller. -/
  | returned (a : α) (s : State)
  /-- The call ended in `pthread_exit`: the calling thread is gone. -/
  | exited (s : State)
  /-- The call is still inside its endless loop after the ticks supplied. -/
  | running (s : State)
  /-- Undefined behaviour. -/
  | fault

/-- Sequencing of two statements. -/
def Outcome.andThen {α β : Type} (o : Outcome α) (k : α → State → Outcome β) : Outcome β :=
  match o with
  | .returned a s => k a s
  | .exited s => .exited s
  | .running s => .running s
  | .fault => .fault

/-- A block `try ... catch (...) handler; throw;` around a call that may end in
`pthread_exit`: the handler runs while the thread unwinds. -/
def Outcome.unwinding {α : Type} (o : Outcome α) (handler : State → State) : Outcome α :=
  match o with
  | .exited s => .exited (handler s)
  | .returned a s => .returned a s
  | .running s => .running s
  | .fault => .fault

/-- The shared state a call leaves behind, when it has defined behaviour. -/
def Outcome.state {α : Type} (o : Outcome α) : Option State :=
  match o with
  | .returned _ s => some s
  | .exited s => some s
  | .running s => some s
  | .fault => none

/-- System call `write (fd, data, length)` on a socket.  It fails (returns -1) on a
negative descriptor, on a negative length, and whenever the peer or the network makes it
fail (`ok = false`); otherwise the first `length` bytes of `data` are sent. -/
def sock_write (fd : Int) (data : List Char) (length : Int) (ok : Bool) (s : State) :
    Option State :=
  if 0 ≤ fd ∧ 0 ≤ length ∧ ok = true then
    some { s with wire := s.wire ++ [(fd, data.take length.toNat)] }
  else none

/-! ## Event-stream registry -/

/-- Loop of `register_event_stream` over the slots still to visit: the first free slot
takes `fd` and the loop breaks. -/
def register_loop (fd : Int) : List (Fin 10) → (Fin 10 → Int) → (Fin 10 → Int)
  | [], es => es
  | i :: rest, es =>
    if es i < 0 then Function.update es i fd else register_loop fd rest es

/-- Source `register_event_stream (fd)`. -/
def register_event_stream (fd : Int) (s : State) : State :=
  { s with event_stream := register_loop fd slot_indices s.event_stream }

/-- Loop of `unregister_event_stream` over the slots still to visit. -/
def unregister_loop (fd : Int) : List (Fin 10) → (Fin 10 → Int) → (Fin 10 → Int)
  | [], es => es
  | i :: rest, es =>
    if es i = fd then unregister_loop fd rest (Function.update es i (-1))
    else unregister_loop fd rest es

/-- Source `unregister_event_stream (fd)`. -/
def unregister_event_stream (fd : Int) (s : State) : State :=
  { s with event_stream := unregister_loop fd slot_indices s.event_stream }

/-! ## Writing to a connection -/

/-- Source `write_header (fd, header, length)`: a failed `write` calls `thread_error`,
which ends the thread; the `catch (exception &)` block is not entered by that, and the
`unregister_event_stream` call after `thread_error` is never reached. -/
def write_header (fd : Int) (header : List Char) (length : Int) (ok : Bool) (s : State) :
    Outcome Unit :=
  match sock_write fd header length ok s with
  | some s1 => .returned () s1
  | none => .exited s

/-- Header text that `serve_page` and `process_put_request` print with `sprintf`. -/
def page_header (page_length : Int) : List Char :=
  "HTTP/1.1 200 OK\r\nContent-Type: text/html; charset=UTF-8\r\nContent-Length: ".toList
    ++ decimal page_length ++ "\n\n".toList

/-- Header text that `open_event_stream` prints. -/
def event_header : List Char :=
  "HTTP/1.1 200 OK\r\nContent-Type: text/event-stream; charset=UTF-8\n\n".toList

/-- Source `serve_page (fd, page, page_length, event)`: the header unless `event`, then
the page; a failed `write` of the page calls `thread_error`.  Its `catch (...)` block
only rethrows. -/
def serve_page (fd : Int) (page : List Char) (page_length : Int) (event : Bool)
    (header_ok body_ok : Bool) (s : State) : Outcome Unit :=
  ((if event = false then
      write_header fd (page_header page_length) (page_header page_length).length header_ok s
    else .returned () s).andThen fun _ s1 =>
      match sock_write fd page page_length body_ok s1 with
      | some s2 => .returned () s2
      | none => .exited s1).unwinding id

/-! ## PUT requests -/

/-- Loop `while ( *ptr != '?' ) ptr++;` of `process_put_request`: the offset of the
first question mark, counted from `k`; `none` when the pointer walks over the terminating
NUL, which is not a question mark either, and leaves the string. -/
def find_query : List Char → Nat → Option Nat
  | [], _ => none
  | c :: cs, k => if c ≠ '?' then find_query cs (k + 1) else some k

/-- Loop of `process_put_request` that rewrites the master copy `output[0 .. 7]` from
`pif_output`, the mask starting at 1 and doubling. -/
def master_loop (pif_output : Nat) : List (Fin 8) → Nat → (Fin 8 → Char) → (Fin 8 → Char)
  | [], _, out => out
  | i :: rest, mask, out =>
    master_loop pif_output rest ((mask <<< 1) % 4294967296)
      (Function.update out i (if mask &&& pif_output ≠ 0 then '1' else '0'))

/-- Lines 492 to 531 of `process_put_request`, entered once `pif_output` holds its new
value: write the register of the device (an 8-bit register), then, inside the `try`
block, send the acknowledgement, rewrite the master copy and set the dirty flag of each
of the 10 slots.  When the acknowledgement cannot be written the thread ends inside
`write_header`; the `catch (...)` block unregisters `fd` and rethrows. -/
def put_publish (fd : Int) (ack_ok : Bool) (s : State) : Outcome Unit :=
  let s1 := { s with device := s.pif_output % 256 }
  ((write_header fd (page_header 0) (page_header 0).length ack_ok s1).andThen fun _ s2 =>
    .returned ()
      { s2 with
        output := master_loop s2.pif_output bit_indices 1 s2.output
        event_waiting := fun _ => true }).unwinding (unregister_event_stream fd)

/-- Source `process_put_request (from_browser, fd)`.  The bit character is the second
character after the question mark and the value character the fourth. -/
def process_put_request (from_browser : List Char) (fd : Int) (ack_ok : Bool) (s : State) :
    Outcome Unit :=
  match find_query from_browser 0 with
  | none => .fault
  | some q =>
    match peek from_browser (q + 2), peek from_browser (q + 4) with
    | some bit_char, some value_char =>
      let bit := char_sub bit_char '0'
      let value := char_sub value_char '0'
      if value ≠ 0 then
        match shl value bit with
        | none => .fault
        | some shifted => put_publish fd ack_ok { s with pif_output := s.pif_output ||| shifted }
      else
        match shl 1 bit with
        | none => .fault
        | some mask =>
          put_publish fd ack_ok { s with pif_output := s.pif_output &&& bit_not mask }
    | _, _ => .fault

/-! ## Event streams -/

/-- Loop of `send_events` over the slots still to visit: every slot that holds the
handle and whose flag is set has the flag cleared and the eight characters of `output`
appended to the event text. -/
def event_scan (fd : Int) : List (Fin 10) → State → List Char → State × List Char
  | [], s, event => (s, event)
  | i :: rest, s, event =>
    if s.event_stream i = fd then
      if s.event_waiting i = true then
        event_scan fd rest
          { s with event_waiting := Function.update s.event_waiting i false }
          (event ++ output_text s)
      else event_scan fd rest s event
    else event_scan fd rest s event

/-- One pass of the body of the endless loop of `send_events`, up to the call of
`serve_page`: the state it leaves and the event text it composed.  The argument `input`
is what `pifacedigital_read_reg` returns, an 8-bit value. -/
def compose_event (event_socket_fd : Int) (input : Nat) (s : State) : State × List Char :=
  let s1 := { s with pif_input := input % 256 }
  let event := "event: piface\ndata: ".toList ++ write_binary s1.pif_input 8
  let r := event_scan event_socket_fd slot_indices s1 event
  (r.1, r.2 ++ ['\n', '\n'])

/-- One pass of the endless loop of `send_events`: compose the event, then
`serve_page (event_socket_fd, event, event_length, true)`, whose `write` succeeds or not
as `ok` says. -/
def send_events_pass (event_socket_fd : Int) (input : Nat) (ok : Bool) (s : State) :
    Outcome Unit :=
  serve_page event_socket_fd (compose_event event_socket_fd input s).2
    ((compose_event event_socket_fd input s).2.length : Nat) true ok ok
    (compose_event event_socket_fd input s).1

/-- Source `send_events (event_socket_fd)`.  Each element of `ticks` is one pass of the
loop: the value of the input register and whether the `write` of the event succeeds.
The loop has no exit of its own: when the ticks supplied are used up it is still
running. -/
def send_events (event_socket_fd : Int) : List (Nat × Bool) → State → Outcome Unit
  | [], s => .running s
  | (input, ok) :: rest, s =>
    (send_events_pass event_socket_fd input ok s).andThen
      fun _ s2 => send_events event_socket_fd rest s2

/-- Source `open_event_stream (fd)`. -/
def open_event_stream (fd : Int) (header_ok : Bool) (s : State) : Outcome Unit :=
  (write_header fd event_header event_header.length header_ok s).andThen fun _ s1 =>
    .returned () (register_event_stream fd s1)

/-! ## GET requests -/

/-- The page `send_error` copies into `disk_page`. -/
def error_page : List Char :=
  "<html><head></head><body>404: File not found</body></html>".toList

/-- What `get_page_name` leaves behind. -/
inductive PageName where
  /-- It returned 0 with this text in `page_name`. -/
  | found (page_name : List Char)
  /-- It returned -1 through `send_error`; `page_name` was not written. -/
  | not_found
  /-- Its `strcpy` wrote past the 300 bytes of `page_name`. -/
  | overflow

/-- First loop of `get_page_name`: the text after the first slash, `none` when the NUL
comes first. -/
def after_slash : List Char → Option (List Char)
  | [] => none
  | c :: cs => if c ≠ '/' then after_slash cs else some cs

/-- Second loop of `get_page_name`: the text before the first space or question mark,
`none` when the NUL comes first. -/
def name_end : List Char → Option (List Char)
  | [] => none
  | c :: cs => if c ≠ ' ' ∧ c ≠ '?' then (name_end cs).map (fun name => c :: name) else some []

/-- Source `get_page_name`. -/
def get_page_name (browser_request : List Char) : PageName :=
  match after_slash browser_request with
  | none => .not_found
  | some rest =>
    match name_end rest with
    | none => .not_found
    | some name =>
      if 300 ≤ name.length then .overflow
      else if name = [] then .found "index.html".toList
      else .found name

/-- What `get_page` leaves behind: the page name, the bytes of `disk_page` and the
length it returns. -/
structure Page where
  page_name : List Char
  disk_page : List Char
  length : Int

/-- Source `get_page`.  The argument `load` is the file system: the bytes of the file of
that name, `none` when `open` fails.  The result of `get_page_name` is not looked at, so
after a failure there `open` is given a name that was never written: a fault. -/
def get_page (browser_request : List Char) (load : List Char → Option (List Char)) :
    Option Page :=
  match get_page_name browser_request with
  | .found page_name =>
    match load page_name with
    | none => some { page_name := page_name, disk_page := error_page, length := -1 }
    | some bytes =>
      some { page_name := page_name, disk_page := bytes.take 39998,
             length := ((bytes.take 39998).length : Nat) }
  | .not_found => none
  | .overflow => none

/-- Source `expand_page`: the characters copied to `expanded`, up to the first NUL. -/
def expand_page (disk : List Char) : List Char := cstr disk

/-- What the outside world does to one connection thread. -/
structure World where
  /-- Whether `setsockopt` succeeds. -/
  sockopt_ok : Bool
  /-- Bytes the first `read` returns; `none` when it fails. -/
  first : Option (List Char)
  /-- Bytes the later `recv` returns. -/
  more : List Char
  /-- The file system. -/
  load : List Char → Option (List Char)
  /-- Whether the `write` of a header succeeds. -/
  header_ok : Bool
  /-- Whether the `write` of a page succeeds. -/
  body_ok : Bool
  /-- For an event stream: the passes of the loop of `send_events`. -/
  ticks : List (Nat × Bool)

/-- Source `process_get_request (from_browser, service_socket_fd)`. -/
def process_get_request (from_browser : List Char) (service_socket_fd : Int) (w : World)
    (s : State) : Outcome Unit :=
  match get_page from_browser w.load with
  | none => .fault
  | some pg =>
    match test_tail_string pg.page_name ".png".toList with
    | none => .fault
    | some png =>
      if png ≠ 0 then
        serve_page service_socket_fd pg.disk_page pg.length false w.header_ok w.body_ok s
      else
        match test_tail_string pg.page_name ".qif".toList with
        | none => .fault
        | some qif =>
          if qif ≠ 0 then
            if test_lead_string pg.page_name "events.".toList ≠ 0 then
              (open_event_stream service_socket_fd w.header_ok s).andThen fun _ s1 =>
                send_events service_socket_fd w.ticks s1
            else .returned () s
          else
            serve_page service_socket_fd (expand_page pg.disk_page)
              ((expand_page pg.disk_page).length : Nat) false w.header_ok w.body_ok s

/-! ## Connection threads -/

def REQUEST_UNDEFINED : Int := 0
def REQUEST_GET : Int := 1
def REQUEST_PUT : Int := 2

/-- Source `get_request_type (p)`. -/
def get_request_type (p : List Char) : Int :=
  if test_lead_string p "GET ".toList ≠ 0 then REQUEST_GET
  else if test_lead_string p "PUT ".toList ≠ 0 then REQUEST_PUT
  else REQUEST_UNDEFINED

/-- The request buffer of `accept_connection` after the first `read` of `n` bytes and,
when `Content-Length:` is found at a positive offset, the later `recv`. -/
def request_buffer (first more : List Char) : List Char :=
  if 0 < test_in_string (cstr (first.take 4998)) "Content-Length:".toList then
    first.take 4998 ++ more.take (4998 - (first.take 4998).length)
  else first.take 4998

/-- The end of `accept_connection` around the work `o` of the thread: `close` when the
work returns; when it ends in `pthread_exit`, the `catch (...)` block, which unregisters
the descriptor and rethrows, so that `close` is not reached. -/
def thread_end (service_socket_fd : Int) (o : Outcome Unit) : Outcome Unit :=
  (o.andThen fun _ s1 =>
    .returned () { s1 with closed := s1.closed ++ [service_socket_fd] }).unwinding
    (unregister_event_stream service_socket_fd)

/-- Source `accept_connection`, the body of a connection thread serving descriptor
`service_socket_fd`.  A failing `setsockopt` or `read` calls `thread_error`. -/
def accept_connection (service_socket_fd : Int) (w : World) (s : State) : Outcome Unit :=
  thread_end service_socket_fd
    (if w.sockopt_ok = false then Outcome.exited s
     else
      match w.first with
      | none => Outcome.exited s
      | some first =>
        if 10 < (first.take 4998).length then
          if get_request_type (cstr (request_buffer first w.more)) = REQUEST_GET then
            process_get_request (cstr (request_buffer first w.more)) service_socket_fd w s
          else if get_request_type (cstr (request_buffer first w.more)) = REQUEST_PUT then
            process_put_request (cstr (request_buffer first w.more)) service_socket_fd
              w.header_ok s
          else Outcome.returned () s
        else Outcome.returned () s)

/-! ## Threads taking turns -/

/-- A step one thread makes on the shared state while the others wait. -/
inductive Ev where
  /-- A connection thread serves a PUT: `process_put_request` and the end of the thread. -/
  | put (from_browser : List Char) (fd : Int) (ack_ok : Bool)
  /-- A call of `register_event_stream`. -/
  | register (fd : Int)
  /-- A call of `unregister_event_stream`. -/
  | unregister (fd : Int)
  /-- One pass of the loop of `send_events` for the connection `fd`; when its `write`
  fails the thread ends and the `catch (...)` block of `accept_connection` runs. -/
  | tick (fd : Int) (input : Nat) (ok : Bool)

/-- The shared state after one step; `none` after undefined behaviour. -/
def step : Ev → State → Option State
  | .put from_browser fd ack_ok, s =>
    (thread_end fd (process_put_request from_browser fd ack_ok s)).state
  | .register fd, s => some (register_event_stream fd s)
  | .unregister fd, s => some (unregister_event_stream fd s)
  | .tick fd input ok, s =>
    ((send_events_pass fd input ok s).unwinding (unregister_event_stream fd)).state

/-- The shared state after a sequence of steps. -/
def run : List Ev → State → Option State
  | [], s => some s
  | e :: rest, s =>
    match step e s with
    | none => none
    | some s1 => run rest s1

/-- The step is made for a connection other than `fd`. -/
def Ev.foreign (fd : Int) : Ev → Prop
  | .put _ g _ => g ≠ fd
  | .register g => g ≠ fd
  | .unregister g => g ≠ fd
  | .tick g _ _ => g ≠ fd

/-- The step is made for a connection other than `fd` and is not a PUT. -/
def Ev.quiet (fd : Int) : Ev → Prop
  | .put _ _ _ => False
  | .register g => g ≠ fd
  | .unregister g => g ≠ fd
  | .tick g _ _ => g ≠ fd

/-! ## Texts named by the specification -/

/-- The 8-character text the specification calls the LSB-first binary rendering of a
value: character `i` is `1` when bit `i` is set and `0` otherwise. -/
def lsb_first_text (n : Nat) : List Char :=
  (List.range 8).map fun i => if n.testBit i = true then '1' else '0'

/-- The digit character of a number below ten. -/
def digit (d : Nat) : Char := Char.ofNat (48 + d)

/-- The text `t` repeated `k` times. -/
def copies : Nat → List Char → List Char
  | 0, _ => []
  | k + 1, t => t ++ copies k t

/-- Number of slots that hold the handle `fd` with the dirty flag set. -/
def dirty_count (fd : Int) (s : State) : Nat :=
  slot_indices.countP fun j => decide (s.event_stream j = fd) && s.event_waiting j

/-- The fixed start of every event text. -/
def event_lead : List Char := "event: piface\ndata: ".toList

/-- The two newlines that end every event text. -/
def event_tail : List Char := "\n\n".toList

/-! ## Sample states and worlds -/

/-- A state in which every slot is occupied: slot `j` holds the handle `20 + j`. -/
def full_registry : State :=
  { initialise boot with event_stream := fun j => (20 : Int) + (j.val : Int) }

/-- A world for one connection thread: every call succeeds, the file system is empty,
and the thread is watched for the passes `ticks` of its event loop. -/
def plain_world (request : List Char) (ticks : List (Nat × Bool)) : World :=
  { sockopt_ok := true, first := some request, more := [], load := fun _ => none,
    header_ok := true, body_ok := true, ticks := ticks }

/-- The request `PUT /x?b3=1 HTTP/1.1`. -/
def sample_put : List Char := "PUT /x?b3=1 HTTP/1.1".toList

/-- A state with one subscriber: after `initialise`, connection 5 has registered and
holds slot 0. -/
def one_subscriber : State := register_event_stream 5 (initialise boot)

/-- The state a call leaves when it returned, and `boot` otherwise. -/
def Outcome.final {α : Type} (o : Outcome α) : State :=
  match o with
  | .returned _ s => s
  | _ => boot

/-- The request `GET /events.qif HTTP/1.1` followed by an empty line. -/
def sample_get : List Char := "GET /events.qif HTTP/1.1\r\n\r\n".toList

/-- The state after the subscriber 5 has seen connection 7 set bit 3 and connection 6
make one pass of its loop. -/
def two_puts_before : State :=
  (run [Ev.put sample_put 7 true, Ev.tick 6 0 true] one_subscriber).getD boot

/-! ## What one connection sees of the shared state -/

/-- The handle slot `j` holds: none when the slot is free, which the loop of
`register_event_stream` tests with `event_stream[i] < 0`. -/
def slot_handle (s : State) (j : Fin 10) : Option Int :=
  if s.event_stream j < 0 then none else some (s.event_stream j)

/-- Slot `j` is occupied and holds the handle `fd`. -/
def holds (s : State) (j : Fin 10) (fd : Int) : Prop := slot_handle s j = some fd


/-- The slots that hold the handle `fd` are the same in both states. -/
def same_slots (fd : Int) (s t : State) : Prop :=
  ∀ j, t.event_stream j = fd ↔ s.event_stream j = fd

/-- Everything an event text for `fd` depends on is the same in both states: the slots
that hold `fd`, their dirty flags, the master output string and `pif_output`. -/
def same_view (fd : Int) (s t : State) : Prop :=
  same_slots fd s t ∧ (∀ j, s.event_stream j = fd → t.event_waiting j = s.event_waiting j) ∧
    t.output = s.output ∧ t.pif_output = s.pif_output

/-! ## The registry as a set -/

/-- Calls of `register_event_stream` and `unregister_event_stream` with non-negative
handles, made from the state `s` on, in which a handle is registered only while no slot
holds it (a connection registers once, and no two open connections share a descriptor). -/
def fresh_calls : List Ev → State → Prop
  | [], _ => True
  | .register fd :: rest, s =>
    0 ≤ fd ∧ (∀ j, s.event_stream j ≠ fd) ∧ fresh_calls rest (register_event_stream fd s)
  | .unregister fd :: rest, s => 0 ≤ fd ∧ fresh_calls rest (unregister_event_stream fd s)
  | .put _ _ _ :: _, _ => False
  | .tick _ _ _ :: _, _ => False

/-- No handle is held by more than one slot. -/
def keyed_by_handle (s : State) : Prop :=
  ∀ (fd : Int) (i j : Fin 10), holds s i fd → holds s j fd → i = j

/-! ## The page name as the specification words it -/

/-- The target path of a request line, in the words of the specification: the text after
the first space (the one that ends the method) up to the next space or question mark. -/
def spec_target_path (request : List Char) : List Char :=
  ((request.dropWhile (fun c => decide (c ≠ ' '))).drop 1).takeWhile
    (fun c => decide (c ≠ ' ') && decide (c ≠ '?'))

/-- The substring after the final slash of a path. -/
def after_final_slash (path : List Char) : List Char :=
  (path.reverse.takeWhile (fun c => decide (c ≠ '/'))).reverse

/-- The page name in the words of the specification: the substring after the final slash
of the target path, and `index.html` when that substring is empty. -/
def spec_page_name (request : List Char) : List Char :=
  if after_final_slash (spec_target_path request) = [] then "index.html".toList
  else after_final_slash (spec_target_path request)

/-! ## Sample assets -/

/-- A world whose file system holds nothing: every `open` fails. -/
def no_assets (request : List Char) : World := plain_world request []

/-- A world whose file system holds one file, `notes.txt`, with the text `hello`. -/
def text_asset (request : List Char) : World :=
  { plain_world request [] with
    load := fun name => if name = "notes.txt".toList then some "hello".toList else none }

/-- A world whose file system holds one file, `notes.txt`, with the four bytes `a`, `b`,
NUL, `c`. -/
def one_asset (request : List Char) : World :=
  { plain_world request [] with
    load := fun name => if name = "notes.txt".toList then some ['a', 'b', NUL, 'c'] else none }

/-! ## Reads of `test_lead_string` -/

/-- The loop of `test_lead_string (a, b)` with its reads spelt out: both pointers stand
at offset `k`; `*q` is read, then `*p`, each through `peek`, so that a read outside a
string gives `none`.  The first argument bounds the number of passes; it gives `none`
when it runs out. -/
def test_lead_reads (a b : List Char) : Nat → Nat → Option Int
  | 0, _ => none
  | passes + 1, k =>
    match peek b k with
    | none => none
    | some q =>
      if q = NUL then some 1
      else
        match peek a k with
        | none => none
        | some p => if p ≠ q then some 0 else test_lead_reads a b passes (k + 1)

/-! ## Before the first PUT -/

/-- The step is not a processed PUT: it is no PUT at all, or a PUT whose acknowledgement
is not written, so that `process_put_request` does not reach the lines that set the
dirty flags. -/
def Ev.unprocessed : Ev → Prop
  | .put _ fd ack_ok => ¬ (0 ≤ fd ∧ ack_ok = true)
  | .register _ => True
  | .unregister _ => True
  | .tick _ _ _ => True

/-- The step is not a PUT. -/
def Ev.no_put : Ev → Prop
  | .put _ _ _ => False
  | .register _ => True
  | .unregister _ => True
  | .tick _ _ _ => True

/-- Steps among which no PUT is processed: two connections register and make a pass
each, one PUT fails to be acknowledged, and one pass fails. -/
def quiet_steps : List Ev :=
  [Ev.register 5, Ev.register 6, Ev.tick 5 3 true, Ev.put sample_put 7 false,
    Ev.tick 6 3 false]

/-- The state after `quiet_steps`. -/
def quiet_start : State := (run quiet_steps (initialise boot)).getD boot

/-! ## A registry held by one handle -/

/-- A state in which all 10 slots hold the handle 5 with their dirty flags set. -/
def all_slots_same : State :=
  { initialise boot with event_stream := fun _ => 5, event_waiting := fun _ => true }

/-! ## The master output string while a flag is set -/

/-- Each of the 8 characters of the master output string is the digit `0` or `1`. -/
def binary_output (s : State) : Prop := ∀ i : Fin 8, s.output i = '0' ∨ s.output i = '1'

/-- If the dirty flag of any slot is set, the master output string is 8 binary digits. -/
def flagged_is_binary (s : State) : Prop :=
  (∃ j, s.event_waiting j = true) → binary_output s

/-- Steps of every kind: two subscribers, a PUT that is acknowledged, passes with both
outcomes, a PUT whose acknowledgement fails, a deregistration. -/
def mixed_steps : List Ev :=
  [Ev.register 5, Ev.register 6, Ev.tick 5 3 true, Ev.put sample_put 7 true,
    Ev.tick 5 3 true, Ev.put "PUT /x?b0=1 HTTP/1.1".toList 8 false, Ev.tick 6 0 false,
    Ev.unregister 5]

/-- The state after `mixed_steps`. -/
def mixed_state : State := (run mixed_steps (initialise boot)).getD boot

/-! ## A slot taken over -/

/-- Subscriber 5 registers and is told of a PUT in its next pass; a later pass fails and
ends its thread; then connection 6 registers. -/
def takeover_steps : List Ev :=
  [Ev.register 5, Ev.put sample_put 7 true, Ev.tick 5 0 true, Ev.tick 5 0 false,
    Ev.register 6]

/-- The state after `takeover_steps`. -/
def takeover_state : State := (run takeover_steps (initialise boot)).getD boot

/-! # Theorems -/

/-! ## Bits -/

theorem mask_and_ne_zero (n k : Nat) : (n &&& 2 ^ k ≠ 0) ↔ n.testBit k = true := by
  rw [Nat.and_two_pow]
  cases h : n.testBit k <;> simp

theorem and_mask_ne_zero (n k : Nat) : (2 ^ k &&& n ≠ 0) ↔ n.testBit k = true := by
  rw [Nat.land_comm]; exact mask_and_ne_zero n k

theorem write_binary_loop_eq (n : Nat) :
    ∀ k j : Nat, j + k ≤ 32 →
      write_binary_loop n k (2 ^ j) =
        (List.range k).map fun i => if n.testBit (j + i) = true then '1' else '0' := by
  intro k
  induction k with
  | zero => intro j _; simp [write_binary_loop]
  | succ k ih =>
    intro j hj
    rw [write_binary_loop, List.range_succ_eq_map, List.map_cons, List.map_map]
    congr 1
    · simp only [mask_and_ne_zero, Nat.add_zero]
    · cases k with
      | zero => simp [write_binary_loop]
      | succ k =>
        have h1 : (2 ^ j <<< 1) % 4294967296 = 2 ^ (j + 1) := by
          rw [Nat.shiftLeft_eq, ← Nat.pow_succ]
          apply Nat.mod_eq_of_lt
          calc 2 ^ (j + 1) < 2 ^ 32 := Nat.pow_lt_pow_right (by norm_num) (by omega)
            _ = 4294967296 := by norm_num
        rw [h1, ih (j + 1) (by omega)]
        apply List.map_congr_left
        intro i _
        simp only [Function.comp, Nat.succ_eq_add_one]
        rw [show j + 1 + i = j + (i + 1) by omega]

theorem write_binary_eight (n : Nat) : write_binary n 8 = lsb_first_text n := by
  have h := write_binary_loop_eq n 8 0 (by norm_num)
  simpa [write_binary, lsb_first_text] using h

theorem master_loop_eq (p : Nat) (out : Fin 8 → Char) :
    master_loop p bit_indices 1 out = fun i => if p.testBit i.val = true then '1' else '0' := by
  have h0 := and_mask_ne_zero p 0
  have h1 := and_mask_ne_zero p 1
  have h2 := and_mask_ne_zero p 2
  have h3 := and_mask_ne_zero p 3
  have h4 := and_mask_ne_zero p 4
  have h5 := and_mask_ne_zero p 5
  have h6 := and_mask_ne_zero p 6
  have h7 := and_mask_ne_zero p 7
  norm_num at h0 h1 h2 h3 h4 h5 h6 h7
  funext i
  fin_cases i <;>
    simp [master_loop, bit_indices, Function.update, h0, h1, h2, h3, h4, h5, h6, h7]

theorem output_text_master (s : State) (p : Nat) :
    output_text { s with output := master_loop p bit_indices 1 s.output } = lsb_first_text p := by
  rw [output_text, master_loop_eq]
  simp [bit_indices, lsb_first_text, List.range_succ_eq_map]
  exact ⟨rfl, rfl, rfl, rfl, rfl⟩

/-! ## PUT requests: parsing -/

theorem find_query_append (pre rest : List Char) (h : '?' ∉ pre) (k : Nat) :
    find_query (pre ++ '?' :: rest) k = some (k + pre.length) := by
  induction pre generalizing k with
  | nil => simp [find_query]
  | cons c cs ih =>
    have hc : c ≠ '?' := fun e => h (by simp [e])
    have hcs : '?' ∉ cs := fun e => h (by simp [e])
    rw [List.cons_append, find_query, if_pos hc, ih hcs, List.length_cons]
    congr 1; omega

theorem peek_bit (pre rest : List Char) (c0 c1 c2 c3 c4 : Char) :
    peek (pre ++ c0 :: c1 :: c2 :: c3 :: c4 :: rest) (pre.length + 2) = some c2 := by
  have h : pre.length + 2 < (pre ++ c0 :: c1 :: c2 :: c3 :: c4 :: rest).length := by
    simp
  rw [peek, if_pos h, List.get?_eq_getElem?, List.getElem?_append_right (by omega)]
  simp

theorem peek_value (pre rest : List Char) (c0 c1 c2 c3 c4 : Char) :
    peek (pre ++ c0 :: c1 :: c2 :: c3 :: c4 :: rest) (pre.length + 4) = some c4 := by
  have h : pre.length + 4 < (pre ++ c0 :: c1 :: c2 :: c3 :: c4 :: rest).length := by
    simp
  rw [peek, if_pos h, List.get?_eq_getElem?, List.getElem?_append_right (by omega)]
  simp

theorem put_publish_eq (fd : Int) (ack_ok : Bool) (s : State) :
    put_publish fd ack_ok s =
      if 0 ≤ fd ∧ ack_ok = true then
        .returned ()
          { s with
            device := s.pif_output % 256
            wire := s.wire ++ [(fd, page_header 0)]
            output := master_loop s.pif_output bit_indices 1 s.output
            event_waiting := fun _ => true }
      else .exited (unregister_event_stream fd { s with device := s.pif_output % 256 }) := by
  unfold put_publish write_header sock_write
  by_cases h : 0 ≤ fd ∧ ack_ok = true
  · simp [h, Outcome.andThen, Outcome.unwinding]
  · have h2 : ¬ (0 ≤ fd ∧ 0 ≤ ((page_header 0).length : Int) ∧ ack_ok = true) :=
      fun e => h ⟨e.1, e.2.2⟩
    simp only [h2, h, if_false]
    rfl

theorem put_publish_state (fd : Int) (ack_ok : Bool) (s : State) :
    ∃ s1, (put_publish fd ack_ok s).state = some s1 ∧ s1.pif_output = s.pif_output := by
  rw [put_publish_eq]
  split
  · exact ⟨_, rfl, rfl⟩
  · exact ⟨_, rfl, rfl⟩

/-! ## Event texts -/

theorem slot_indices_nodup : slot_indices.Nodup := by decide

theorem mem_slot_indices (i : Fin 10) : i ∈ slot_indices := by
  fin_cases i <;> simp [slot_indices]

theorem output_text_flags (s : State) (f : Fin 10 → Bool) :
    output_text { s with event_waiting := f } = output_text s := rfl

/-- What the scan of `send_events` does over a list of distinct slots: the flag of every
visited slot that holds `fd` is cleared, and the master output string is appended once
for every visited slot that holds `fd` with its flag set. -/
theorem event_scan_eq (fd : Int) :
    ∀ (l : List (Fin 10)), l.Nodup → ∀ (s : State) (event : List Char),
      event_scan fd l s event =
        ({ s with event_waiting := fun j =>
              if j ∈ l ∧ s.event_stream j = fd then false else s.event_waiting j },
         event ++ copies
            (l.countP fun j => decide (s.event_stream j = fd) && s.event_waiting j)
            (output_text s)) := by
  intro l
  induction l with
  | nil => intro _ s event; simp [event_scan, copies]
  | cons i rest ih =>
    intro hnd s event
    have hi : i ∉ rest := (List.nodup_cons.mp hnd).1
    have hrest : rest.Nodup := (List.nodup_cons.mp hnd).2
    by_cases h1 : s.event_stream i = fd
    · by_cases h2 : s.event_waiting i = true
      · rw [event_scan, if_pos h1, if_pos h2, ih hrest]
        have hc : (rest.countP fun j =>
            decide (s.event_stream j = fd) && Function.update s.event_waiting i false j) =
            rest.countP fun j => decide (s.event_stream j = fd) && s.event_waiting j := by
          apply List.countP_congr
          intro j hj
          have hji : j ≠ i := fun e => hi (e ▸ hj)
          simp [Function.update_noteq hji]
        simp only [hc, output_text_flags]
        rw [List.countP_cons_of_pos _ _ (by simp [h1, h2]), copies, List.append_assoc]
        congr 2
        funext j
        by_cases hji : j = i
        · subst hji; simp [h1]
        · simp [Function.update_noteq hji, hji]
      · rw [event_scan, if_pos h1, if_neg h2, ih hrest,
          List.countP_cons_of_neg _ _ (by simp [h2])]
        congr 2
        funext j
        by_cases hji : j = i
        · subst hji
          have : s.event_waiting j = false := by simpa using h2
          simp [h1, this]
        · simp [hji]
    · rw [event_scan, if_neg h1, ih hrest, List.countP_cons_of_neg _ _ (by simp [h1])]
      congr 2
      funext j
      by_cases hji : j = i
      · subst hji; simp [h1]
      · simp [hji]

theorem lsb_first_text_mod (input : Nat) : lsb_first_text (input % 256) = lsb_first_text input := by
  unfold lsb_first_text
  apply List.map_congr_left
  intro i hi
  have h8 : i < 8 := List.mem_range.mp hi
  rw [show (256 : Nat) = 2 ^ 8 by norm_num, Nat.testBit_mod_two_pow]
  simp [h8]

/-- The event text of one pass and the state it leaves. -/
theorem compose_event_eq (fd : Int) (input : Nat) (s : State) :
    compose_event fd input s =
      ({ s with
          pif_input := input % 256
          event_waiting := fun j => if s.event_stream j = fd then false else s.event_waiting j },
       event_lead ++ lsb_first_text input ++ copies (dirty_count fd s) (output_text s)
         ++ event_tail) := by
  unfold compose_event
  simp only [event_scan_eq fd slot_indices slot_indices_nodup, write_binary_eight,
    lsb_first_text_mod, mem_slot_indices, true_and]
  rfl

theorem dirty_count_single (s : State) (fd : Int) (i : Fin 10)
    (hi : s.event_stream i = fd) (hu : ∀ j, s.event_stream j = fd → j = i) :
    dirty_count fd s = if s.event_waiting i = true then 1 else 0 := by
  unfold dirty_count
  have hp : (fun j => decide (s.event_stream j = fd) && s.event_waiting j) =
      fun j => decide (j = i) && s.event_waiting i := by
    funext j
    by_cases hji : j = i
    · subst hji; simp [hi]
    · have : s.event_stream j ≠ fd := fun e => hji (hu j e)
      simp [this, hji]
  rw [hp]
  cases h : s.event_waiting i
  · simp
  · have h1 : List.count i slot_indices = 1 :=
      List.count_eq_one_of_mem slot_indices_nodup (mem_slot_indices i)
    simp only [Bool.and_true, if_true]
    rw [← h1, List.count, List.countP_congr]
    intro j _
    simp

/-! ## Steps of other connections -/

theorem send_events_pass_eq (fd : Int) (input : Nat) (ok : Bool) (s : State) :
    send_events_pass fd input ok s =
      if 0 ≤ fd ∧ ok = true then
        .returned ()
          { (compose_event fd input s).1 with
            wire := (compose_event fd input s).1.wire ++ [(fd, (compose_event fd input s).2)] }
      else .exited (compose_event fd input s).1 := by
  unfold send_events_pass serve_page sock_write
  by_cases h : 0 ≤ fd ∧ ok = true
  · simp [h, Outcome.andThen, Outcome.unwinding]
  · have h2 : ¬ (0 ≤ fd ∧ 0 ≤ (((compose_event fd input s).2.length : Nat) : Int) ∧ ok = true) :=
      fun e => h ⟨e.1, e.2.2⟩
    simp only [h2, h, if_false]
    rfl

theorem register_loop_same (fd g : Int) (hfd : 0 ≤ fd) (hg : g ≠ fd) (j : Fin 10) :
    ∀ (l : List (Fin 10)) (es : Fin 10 → Int), register_loop g l es j = fd ↔ es j = fd := by
  intro l
  induction l with
  | nil => intro es; rfl
  | cons i rest ih =>
    intro es
    rw [register_loop]
    split
    · rename_i hneg
      by_cases hji : j = i
      · subst hji
        rw [Function.update_same]
        constructor
        · intro e; exact absurd e hg
        · intro e; omega
      · rw [Function.update_noteq hji]
    · exact ih es

theorem unregister_loop_same (fd g : Int) (hfd : 0 ≤ fd) (hg : g ≠ fd) (j : Fin 10) :
    ∀ (l : List (Fin 10)) (es : Fin 10 → Int), unregister_loop g l es j = fd ↔ es j = fd := by
  intro l
  induction l with
  | nil => intro es; rfl
  | cons i rest ih =>
    intro es
    rw [unregister_loop]
    split
    · rename_i heq
      rw [ih]
      by_cases hji : j = i
      · subst hji
        rw [Function.update_same]
        constructor
        · intro e; omega
        · intro e; exact absurd (heq.symm.trans e) hg
      · rw [Function.update_noteq hji]
    · exact ih es

theorem same_slots_refl (fd : Int) (s : State) : same_slots fd s s := fun _ => Iff.rfl

theorem same_slots_trans (fd : Int) (s t u : State) (h1 : same_slots fd s t)
    (h2 : same_slots fd t u) : same_slots fd s u := fun j => (h2 j).trans (h1 j)

theorem same_view_refl (fd : Int) (s : State) : same_view fd s s :=
  ⟨same_slots_refl fd s, fun _ _ => rfl, rfl, rfl⟩

theorem same_view_trans (fd : Int) (s t u : State) (h1 : same_view fd s t)
    (h2 : same_view fd t u) : same_view fd s u :=
  ⟨same_slots_trans fd s t u h1.1 h2.1,
   fun j hj => (h2.2.1 j ((h1.1 j).mpr hj)).trans (h1.2.1 j hj),
   h2.2.2.1.trans h1.2.2.1, h2.2.2.2.trans h1.2.2.2⟩

theorem register_same_view (fd g : Int) (hfd : 0 ≤ fd) (hg : g ≠ fd) (s : State) :
    same_view fd s (register_event_stream g s) :=
  ⟨fun j => register_loop_same fd g hfd hg j slot_indices s.event_stream,
   fun _ _ => rfl, rfl, rfl⟩

theorem unregister_same_view (fd g : Int) (hfd : 0 ≤ fd) (hg : g ≠ fd) (s : State) :
    same_view fd s (unregister_event_stream g s) :=
  ⟨fun j => unregister_loop_same fd g hfd hg j slot_indices s.event_stream,
   fun _ _ => rfl, rfl, rfl⟩

theorem compose_same_view (fd g : Int) (hg : g ≠ fd) (input : Nat) (s : State) :
    same_view fd s (compose_event g input s).1 := by
  rw [compose_event_eq]
  refine ⟨fun _ => Iff.rfl, fun j hj => ?_, rfl, rfl⟩
  have : s.event_stream j ≠ g := fun e => hg (e.symm.trans hj)
  simp [this]

theorem tick_same_view (fd g : Int) (hfd : 0 ≤ fd) (hg : g ≠ fd) (input : Nat) (ok : Bool)
    (s : State) : ∃ t, step (.tick g input ok) s = some t ∧ same_view fd s t := by
  show ∃ t, ((send_events_pass g input ok s).unwinding (unregister_event_stream g)).state
      = some t ∧ same_view fd s t
  rw [send_events_pass_eq]
  split
  · exact ⟨_, rfl, compose_same_view fd g hg input s⟩
  · exact ⟨_, rfl, same_view_trans fd _ _ _ (compose_same_view fd g hg input s)
      (unregister_same_view fd g hfd hg _)⟩

theorem step_quiet (fd : Int) (hfd : 0 ≤ fd) (e : Ev) (he : e.quiet fd) (s : State) :
    ∃ t, step e s = some t ∧ same_view fd s t := by
  cases e with
  | put r g a => exact absurd he (by simp [Ev.quiet])
  | register g => exact ⟨_, rfl, register_same_view fd g hfd he s⟩
  | unregister g => exact ⟨_, rfl, unregister_same_view fd g hfd he s⟩
  | tick g input ok => exact tick_same_view fd g hfd he input ok s

theorem run_quiet (fd : Int) (hfd : 0 ≤ fd) :
    ∀ (l : List Ev), (∀ e ∈ l, e.quiet fd) → ∀ s : State,
      ∃ t, run l s = some t ∧ same_view fd s t := by
  intro l
  induction l with
  | nil => intro _ s; exact ⟨s, rfl, same_view_refl fd s⟩
  | cons e rest ih =>
    intro h s
    obtain ⟨t, ht, hv⟩ := step_quiet fd hfd e (h e (by simp)) s
    obtain ⟨u, hu, hw⟩ := ih (fun e he => h e (by simp [he])) t
    refine ⟨u, ?_, same_view_trans fd s t u hv hw⟩
    rw [run, ht]; exact hu

/-! ## PUT requests: what a processed PUT leaves -/

theorem process_put_request_cases (from_browser : List Char) (fd : Int) (ack_ok : Bool)
    (s : State) :
    process_put_request from_browser fd ack_ok s = .fault ∨
      ∃ p, process_put_request from_browser fd ack_ok s =
        put_publish fd ack_ok { s with pif_output := p } := by
  unfold process_put_request
  split
  · exact Or.inl rfl
  · split
    · dsimp only
      split <;> split <;> first
        | exact Or.inl (by with_reducible rfl)
        | exact Or.inr ⟨_, by with_reducible rfl⟩
    · exact Or.inl rfl

/-- A PUT that returns has written the acknowledgement, rewritten the master output
string from the new `pif_output` and set every dirty flag. -/
theorem process_put_request_returned (from_browser : List Char) (fd : Int) (ack_ok : Bool)
    (s s1 : State) (h : process_put_request from_browser fd ack_ok s = .returned () s1) :
    (0 ≤ fd ∧ ack_ok = true) ∧
    s1 = { s with
            pif_output := s1.pif_output
            device := s1.pif_output % 256
            wire := s.wire ++ [(fd, page_header 0)]
            output := master_loop s1.pif_output bit_indices 1 s.output
            event_waiting := fun _ => true } := by
  rcases process_put_request_cases from_browser fd ack_ok s with hf | ⟨p, hp⟩
  · rw [hf] at h; cases h
  · rw [hp, put_publish_eq] at h
    split at h
    · rename_i hok
      injection h with _ h
      subst h
      exact ⟨hok, rfl⟩
    · cases h

theorem output_text_returned (from_browser : List Char) (fd : Int) (ack_ok : Bool)
    (s s1 : State) (h : process_put_request from_browser fd ack_ok s = .returned () s1) :
    output_text s1 = lsb_first_text s1.pif_output := by
  have h1 := (process_put_request_returned from_browser fd ack_ok s s1 h).2
  rw [h1]
  exact output_text_master _ _

theorem dirty_count_view (fd : Int) (s t : State) (h : same_view fd s t) :
    dirty_count fd t = dirty_count fd s := by
  unfold dirty_count
  apply List.countP_congr
  intro j _
  by_cases hj : s.event_stream j = fd
  · simp [hj, (h.1 j).mpr hj, h.2.1 j hj]
  · have : t.event_stream j ≠ fd := fun e => hj ((h.1 j).mp e)
    simp [hj, this]

theorem output_text_view (fd : Int) (s t : State) (h : same_view fd s t) :
    output_text t = output_text s := by
  unfold output_text; rw [h.2.2.1]

theorem dirty_count_pos (fd : Int) (s : State) (i : Fin 10) (hi : s.event_stream i = fd)
    (hw : s.event_waiting i = true) : 0 < dirty_count fd s := by
  unfold dirty_count
  rw [List.countP_pos_iff]
  exact ⟨i, mem_slot_indices i, by simp [hi, hw]⟩

theorem dirty_count_zero (fd : Int) (s : State)
    (h : ∀ j, s.event_stream j = fd → s.event_waiting j = false) : dirty_count fd s = 0 := by
  unfold dirty_count
  rw [List.countP_eq_zero]
  intro j _
  by_cases hj : s.event_stream j = fd
  · simp [h j hj]
  · simp [hj]

/-- After a pass for `fd` no slot that holds `fd` has its flag set. -/
theorem compose_event_clears (fd : Int) (input : Nat) (s : State) (j : Fin 10)
    (hj : (compose_event fd input s).1.event_stream j = fd) :
    (compose_event fd input s).1.event_waiting j = false := by
  rw [compose_event_eq] at hj ⊢
  have : s.event_stream j = fd := hj
  simp [this]

theorem step_put_returned (from_browser : List Char) (fd : Int) (ack_ok : Bool)
    (s s1 : State) (h : process_put_request from_browser fd ack_ok s = .returned () s1) :
    step (.put from_browser fd ack_ok) s = some { s1 with closed := s1.closed ++ [fd] } := by
  show (thread_end fd (process_put_request from_browser fd ack_ok s)).state = _
  rw [h]; rfl

theorem run_append (l1 l2 : List Ev) (s t : State) (h : run l1 s = some t) :
    run (l1 ++ l2) s = run l2 t := by
  induction l1 generalizing s with
  | nil => cases h; rfl
  | cons e rest ih =>
    rw [run] at h
    rw [List.cons_append, run]
    cases hs : step e s with
    | none => rw [hs] at h; cases h
    | some u => rw [hs] at h; exact ih u h

/-- Two event texts for `fd` in a row, with steps of other connections and no PUT
around them: the first one carries the master output string once for every slot that
holds `fd` with its flag set, the second one carries none. -/
theorem texts_after_put (fd : Int) (hfd : 0 ≤ fd) (s1 : State)
    (others1 others2 : List Ev)
    (h1 : ∀ e ∈ others1, e.quiet fd) (h2 : ∀ e ∈ others2, e.quiet fd) (input1 input2 : Nat) :
    ∃ s2 s3 s4, run others1 s1 = some s2
      ∧ send_events_pass fd input1 true s2 = .returned () s3
      ∧ run others2 s3 = some s4
      ∧ same_view fd s1 s2
      ∧ (compose_event fd input1 s2).2 =
          event_lead ++ lsb_first_text input1 ++ copies (dirty_count fd s1) (output_text s1)
            ++ event_tail
      ∧ (compose_event fd input2 s4).2 = event_lead ++ lsb_first_text input2 ++ event_tail := by
  obtain ⟨s2, hs2, hv2⟩ := run_quiet fd hfd others1 h1 s1
  have hpass := send_events_pass_eq fd input1 true s2
  rw [if_pos ⟨hfd, rfl⟩] at hpass
  obtain ⟨s4, hs4, hv4⟩ := run_quiet fd hfd others2 h2
    { (compose_event fd input1 s2).1 with
      wire := (compose_event fd input1 s2).1.wire ++ [(fd, (compose_event fd input1 s2).2)] }
  refine ⟨s2, _, s4, hs2, hpass, hs4, hv2, ?_, ?_⟩
  · rw [compose_event_eq, dirty_count_view fd s1 s2 hv2, output_text_view fd s1 s2 hv2]
  · have hz : dirty_count fd s4 = 0 := by
      rw [dirty_count_view fd _ s4 hv4]
      apply dirty_count_zero
      intro j hj
      exact compose_event_clears fd input1 s2 j hj
    rw [compose_event_eq, hz]
    simp [copies]

theorem put_publish_slots (fd g : Int) (hfd : 0 ≤ fd) (hg : g ≠ fd) (ack_ok : Bool)
    (s t : State) (h : (thread_end g (put_publish g ack_ok s)).state = some t) :
    same_slots fd s t := by
  rw [put_publish_eq] at h
  split at h
  · cases h; exact fun _ => Iff.rfl
  · cases h
    intro j
    exact ((unregister_same_view fd g hfd hg _).1 j).trans
      ((unregister_same_view fd g hfd hg _).1 j)

theorem step_foreign (fd : Int) (hfd : 0 ≤ fd) (e : Ev) (he : e.foreign fd) (s t : State)
    (h : step e s = some t) : same_slots fd s t := by
  cases e with
  | put r g a =>
    have h0 : (thread_end g (process_put_request r g a s)).state = some t := h
    rcases process_put_request_cases r g a s with hf | ⟨p, hp⟩
    · rw [hf] at h0; cases h0
    · rw [hp] at h0
      exact put_publish_slots fd g hfd he a { s with pif_output := p } t h0
  | register g =>
    cases h; exact (register_same_view fd g hfd he s).1
  | unregister g =>
    cases h; exact (unregister_same_view fd g hfd he s).1
  | tick g input ok =>
    obtain ⟨u, hu, hv⟩ := tick_same_view fd g hfd he input ok s
    rw [hu] at h; cases h; exact hv.1

theorem run_foreign (fd : Int) (hfd : 0 ≤ fd) :
    ∀ (l : List Ev), (∀ e ∈ l, e.foreign fd) → ∀ s t : State, run l s = some t →
      same_slots fd s t := by
  intro l
  induction l with
  | nil => intro _ s t h; cases h; exact same_slots_refl fd s
  | cons e rest ih =>
    intro hl s t h
    rw [run] at h
    cases hs : step e s with
    | none => rw [hs] at h; cases h
    | some u =>
      rw [hs] at h
      exact same_slots_trans fd s u t (step_foreign fd hfd e (hl e (by simp)) s u hs)
        (ih (fun e he => hl e (by simp [he])) u t h)

/-! ## PUT requests: the master output string -/

/-- A request with the digit of bit 3 and the digit of value 1 in their places sets bit 3. -/
theorem process_put_request_bit3 (s : State) (fd : Int) (ack_ok : Bool)
    (pre rest : List Char) (c1 c3 : Char) (hpre : '?' ∉ pre) :
    process_put_request (pre ++ '?' :: c1 :: '3' :: c3 :: '1' :: rest) fd ack_ok s =
      put_publish fd ack_ok { s with pif_output := s.pif_output ||| 8 } := by
  have hq := find_query_append pre (c1 :: '3' :: c3 :: '1' :: rest) hpre 0
  rw [Nat.zero_add] at hq
  unfold process_put_request
  simp only [hq, peek_bit, peek_value]
  rfl

/-! ## The registry -/

theorem slot_indices_sorted : slot_indices.Pairwise (fun a b => a < b) := by decide

theorem register_loop_first (fd : Int) (es : Fin 10 → Int) (i : Fin 10) (hfree : es i < 0) :
    ∀ l : List (Fin 10), i ∈ l → l.Pairwise (fun a b => a < b) →
      (∀ j, j < i → 0 ≤ es j) → register_loop fd l es = Function.update es i fd := by
  intro l
  induction l with
  | nil => intro h; cases h
  | cons a rest ih =>
    intro hmem hsorted hlow
    rw [register_loop]
    by_cases hai : a = i
    · subst hai; rw [if_pos hfree]
    · have hin : i ∈ rest := by
        rcases List.mem_cons.mp hmem with h | h
        · exact absurd h.symm hai
        · exact h
      have hlt : a < i := (List.pairwise_cons.mp hsorted).1 i hin
      have : ¬ es a < 0 := not_lt.mpr (hlow a hlt)
      rw [if_neg this]
      exact ih hin (List.pairwise_cons.mp hsorted).2 hlow

theorem register_loop_full (fd : Int) (es : Fin 10 → Int) (hfull : ∀ j, 0 ≤ es j) :
    ∀ l : List (Fin 10), register_loop fd l es = es := by
  intro l
  induction l with
  | nil => rfl
  | cons a rest ih =>
    rw [register_loop, if_neg (not_lt.mpr (hfull a))]
    exact ih

theorem unregister_loop_eq (fd : Int) :
    ∀ (l : List (Fin 10)) (es : Fin 10 → Int),
      unregister_loop fd l es = fun j => if j ∈ l ∧ es j = fd then -1 else es j := by
  intro l
  induction l with
  | nil => intro es; funext j; simp [unregister_loop]
  | cons i rest ih =>
    intro es
    rw [unregister_loop]
    split
    · rename_i heq
      rw [ih]
      funext j
      by_cases hji : j = i
      · subst hji; simp [heq]
      · simp [Function.update_noteq hji, hji]
    · rename_i hne
      rw [ih]
      funext j
      by_cases hji : j = i
      · subst hji; simp [hne]
      · simp [hji]

theorem unregister_event_stream_eq (fd : Int) (s : State) :
    unregister_event_stream fd s =
      { s with event_stream := fun j => if s.event_stream j = fd then -1 else s.event_stream j } := by
  unfold unregister_event_stream
  rw [unregister_loop_eq]
  simp only [mem_slot_indices, true_and]

theorem unregister_twice (fd : Int) (s : State) :
    (fd ≠ -1 → ∀ j, (unregister_event_stream fd s).event_stream j ≠ fd)
    ∧ unregister_event_stream fd (unregister_event_stream fd s) = unregister_event_stream fd s := by
  refine ⟨?_, ?_⟩
  · intro hfd j
    rw [unregister_event_stream_eq]
    show (if s.event_stream j = fd then -1 else s.event_stream j) ≠ fd
    split
    · exact fun e => hfd e.symm
    · assumption
  · rw [unregister_event_stream_eq, unregister_event_stream_eq]
    congr 1
    funext j
    show (if (if s.event_stream j = fd then -1 else s.event_stream j) = fd then -1
      else (if s.event_stream j = fd then -1 else s.event_stream j)) = _
    by_cases h : s.event_stream j = fd
    · simp [h]
    · simp [h]

/-! ## Event streams: the thread -/

theorem open_event_stream_eq (fd : Int) (header_ok : Bool) (s : State) :
    open_event_stream fd header_ok s =
      if 0 ≤ fd ∧ header_ok = true then
        .returned () (register_event_stream fd { s with wire := s.wire ++ [(fd, event_header)] })
      else .exited s := by
  unfold open_event_stream write_header sock_write
  by_cases h : 0 ≤ fd ∧ header_ok = true
  · simp [h, Outcome.andThen]
  · have h2 : ¬ (0 ≤ fd ∧ 0 ≤ ((event_header.length : Nat) : Int) ∧ header_ok = true) :=
      fun e => h ⟨e.1, e.2.2⟩
    simp only [h2, h, if_false]
    rfl

/-- A GET whose page name is `events.qif` opens the event stream and enters the loop of
`send_events`, whatever the file system holds. -/
theorem process_get_request_events (from_browser : List Char) (fd : Int) (w : World)
    (s : State) (hname : get_page_name from_browser = .found "events.qif".toList) :
    process_get_request from_browser fd w s =
      (open_event_stream fd w.header_ok s).andThen fun _ s1 => send_events fd w.ticks s1 := by
  have hpng : test_tail_string "events.qif".toList ".png".toList = some 0 := by decide
  have hqif : test_tail_string "events.qif".toList ".qif".toList = some 1 := by decide
  have hlead : test_lead_string "events.qif".toList "events.".toList = 1 := by decide
  unfold process_get_request get_page
  rw [hname]
  dsimp only
  cases hl : w.load "events.qif".toList <;> dsimp only <;> rw [hpng] <;> dsimp only <;>
    rw [if_neg (by decide), hqif] <;> dsimp only <;>
    rw [if_pos (by decide), hlead, if_pos (by decide)]

theorem send_events_failed_pass (fd : Int) (input : Nat) (rest : List (Nat × Bool))
    (s : State) : send_events fd ((input, false) :: rest) s = .exited (compose_event fd input s).1 := by
  rw [send_events, send_events_pass_eq]
  simp [Outcome.andThen]

theorem send_events_until_failure (fd : Int) (input : Nat) (rest : List (Nat × Bool)) :
    ∀ (oks : List (Nat × Bool)), (∀ x ∈ oks, x.2 = true) → ∀ s : State,
      ∃ u, send_events fd (oks ++ (input, false) :: rest) s = .exited u := by
  intro oks
  induction oks with
  | nil => intro _ s; exact ⟨_, send_events_failed_pass fd input rest s⟩
  | cons x more ih =>
    intro h s
    obtain ⟨i, ok⟩ := x
    have hok : ok = true := h (i, ok) (by simp)
    subst hok
    rw [List.cons_append, send_events, send_events_pass_eq]
    split
    · exact ih (fun x hx => h x (by simp [hx])) _
    · exact ⟨_, rfl⟩

theorem register_loop_stores (g : Int) :
    ∀ (l : List (Fin 10)) (es : Fin 10 → Int), (∃ j ∈ l, es j < 0) →
      ∃ k, register_loop g l es k = g := by
  intro l
  induction l with
  | nil => intro es h; obtain ⟨j, hj, _⟩ := h; cases hj
  | cons a rest ih =>
    intro es h
    rw [register_loop]
    split
    · exact ⟨a, Function.update_same a g es⟩
    · rename_i hna
      obtain ⟨j, hj, hneg⟩ := h
      rcases List.mem_cons.mp hj with e | e
      · subst e; exact absurd hneg hna
      · exact ih es ⟨j, e, hneg⟩

theorem send_events_unregistered (fd : Int) (hfd : 0 ≤ fd) :
    ∀ (ticks : List (Nat × Bool)), (∀ x ∈ ticks, x.2 = true) → ∀ s : State,
      (∀ j, s.event_stream j ≠ fd) →
      ∃ t, send_events fd ticks s = .running t
        ∧ t.wire = s.wire ++ ticks.map (fun x =>
            (fd, event_lead ++ lsb_first_text x.1 ++ event_tail))
        ∧ t.event_stream = s.event_stream ∧ t.event_waiting = s.event_waiting
        ∧ t.output = s.output ∧ t.pif_output = s.pif_output := by
  intro ticks
  induction ticks with
  | nil => intro _ s _; exact ⟨s, rfl, by simp, rfl, rfl, rfl, rfl⟩
  | cons x more ih =>
    intro h s hnew
    obtain ⟨i, ok⟩ := x
    have hok : ok = true := h (i, ok) (by simp)
    subst hok
    have hz : dirty_count fd s = 0 :=
      dirty_count_zero fd s (fun j hj => absurd hj (hnew j))
    have hflags : (fun j => if s.event_stream j = fd then false else s.event_waiting j)
        = s.event_waiting := by
      funext j; rw [if_neg (hnew j)]
    rw [send_events, send_events_pass_eq, if_pos ⟨hfd, rfl⟩, compose_event_eq, hz, hflags]
    obtain ⟨t, ht, hw, hes, hew, hout, hpif⟩ := ih (fun x hx => h x (by simp [hx]))
      { s with pif_input := i % 256,
               wire := s.wire ++ [(fd, event_lead ++ lsb_first_text i ++ copies 0 (output_text s)
                  ++ event_tail)] } hnew
    refine ⟨t, ht, ?_, hes, hew, hout, hpif⟩
    rw [hw]
    simp [copies]

/-! # The claims -/

/-- Claim C1.  For every prior output value `p` below 256, every bit index `b` from 0 to
7 and every value `v` in 0, 1: `process_put_request`, on a request whose bit digit (the
second character after the first question mark) is `b` and whose value digit (the fourth
character) is `v`, has defined behaviour, whether or not the acknowledgement can be
written, and leaves `pif_output` with bit `b` equal to `v` and every other bit equal to
its value in `p`. -/
theorem C1_put_sets_one_bit (s : State) (fd : Int) (ack_ok : Bool)
    (pre rest : List Char) (c1 c3 : Char) (b v : Nat)
    (hp : s.pif_output < 256) (hb : b < 8) (hv : v < 2) (hpre : '?' ∉ pre) :
    ∃ s1, (process_put_request (pre ++ '?' :: c1 :: digit b :: c3 :: digit v :: rest)
              fd ack_ok s).state = some s1 ∧
      s1.pif_output.testBit b = decide (v = 1) ∧
      ∀ i, i ≠ b → s1.pif_output.testBit i = s.pif_output.testBit i := by
  have hq := find_query_append pre (c1 :: digit b :: c3 :: digit v :: rest) hpre 0
  rw [Nat.zero_add] at hq
  have hbit : char_sub (digit b) '0' = b := by
    interval_cases b <;> rfl
  have hval : char_sub (digit v) '0' = v := by
    interval_cases v <;> rfl
  have hshl : shl 1 b = some (2 ^ b) := by
    interval_cases b <;> rfl
  have hhigh : ∀ i, 32 ≤ i → s.pif_output.testBit i = false := by
    intro i hi
    apply Nat.testBit_lt_two_pow
    calc s.pif_output < 256 := hp
      _ = 2 ^ 8 := by norm_num
      _ ≤ 2 ^ i := Nat.pow_le_pow_right (by norm_num) (by omega)
  have hones : ∀ i, (4294967295 : Nat).testBit i = decide (i < 32) := by
    intro i
    rw [show (4294967295 : Nat) = 2 ^ 32 - 1 by norm_num, Nat.testBit_two_pow_sub_one]
  unfold process_put_request
  simp only [hq, peek_bit, peek_value, hbit, hval]
  interval_cases v
  · -- value 0: the bit is cleared
    simp only [ne_eq, not_true_eq_false, if_false, hshl]
    obtain ⟨s1, h1, h2⟩ := put_publish_state fd ack_ok
      { s with pif_output := s.pif_output &&& bit_not (2 ^ b) }
    refine ⟨s1, h1, ?_, ?_⟩
    · rw [h2]
      simp only [bit_not, Nat.testBit_and, Nat.testBit_xor, Nat.testBit_two_pow, hones]
      have : b < 32 := by omega
      simp [this]
    · intro i hi
      rw [h2]
      simp only [bit_not, Nat.testBit_and, Nat.testBit_xor, Nat.testBit_two_pow, hones]
      by_cases hi32 : i < 32
      · simp [hi32, Ne.symm hi]
      · simp [hi32, hhigh i (by omega)]
  · -- value 1: the bit is set
    simp only [hshl]
    obtain ⟨s1, h1, h2⟩ := put_publish_state fd ack_ok
      { s with pif_output := s.pif_output ||| 2 ^ b }
    refine ⟨s1, by simpa using h1, ?_, ?_⟩
    · rw [h2]; simp [Nat.testBit_two_pow]
    · intro i hi
      rw [h2]; simp [Nat.testBit_two_pow, Ne.symm hi]

/-- Claim C1 at the request `PUT /x?b3=1 HTTP/1.1` on the state `initialise` leaves. -/
theorem C1_put_sets_one_bit_witness :
    (initialise boot).pif_output < 256 ∧ (3 : Nat) < 8 ∧ (1 : Nat) < 2
    ∧ '?' ∉ "PUT /x".toList
    ∧ ∃ s1, (process_put_request
          ("PUT /x".toList ++ '?' :: 'b' :: digit 3 :: '=' :: digit 1 :: " HTTP/1.1".toList)
          7 true (initialise boot)).state = some s1 ∧
        s1.pif_output.testBit 3 = decide (1 = 1) ∧
        ∀ i, i ≠ 3 → s1.pif_output.testBit i = (initialise boot).pif_output.testBit i :=
  ⟨by decide, by decide, by decide, by decide,
    C1_put_sets_one_bit (initialise boot) 7 true "PUT /x".toList " HTTP/1.1".toList 'b' '='
      3 1 (by decide) (by decide) (by decide) (by decide)⟩

/-- Claim C2.  The connection `fd` holds a slot when a PUT is processed, that is, when
`process_put_request` returns; afterwards other connections make any steps that are not
PUTs.  Then the first event text composed for `fd` has the new master output string,
which is the rendering of the new `pif_output`, right after the input characters (and
nothing but the two newlines after it when `fd` holds exactly one slot), that pass
returns, and after further steps of other connections the next event text composed for
`fd` has no output segment. -/
theorem C2_put_delivered_once (s : State) (fd : Int) (hfd : 0 ≤ fd) (i : Fin 10)
    (hi : s.event_stream i = fd)
    (from_browser : List Char) (put_fd : Int) (ack_ok : Bool) (s1 : State)
    (hput : process_put_request from_browser put_fd ack_ok s = .returned () s1)
    (others1 others2 : List Ev)
    (h1 : ∀ e ∈ others1, e.quiet fd) (h2 : ∀ e ∈ others2, e.quiet fd) (input1 input2 : Nat) :
    ∃ s2 s3 s4, run (.put from_browser put_fd ack_ok :: others1) s = some s2
      ∧ send_events_pass fd input1 true s2 = .returned () s3
      ∧ run others2 s3 = some s4
      ∧ output_text s1 = lsb_first_text s1.pif_output
      ∧ (∃ more, (compose_event fd input1 s2).2 =
          "event: piface\ndata: ".toList ++ lsb_first_text input1 ++ output_text s1 ++ more)
      ∧ ((∀ j, s.event_stream j = fd → j = i) →
          (compose_event fd input1 s2).2 =
            "event: piface\ndata: ".toList ++ lsb_first_text input1 ++ output_text s1
              ++ "\n\n".toList)
      ∧ (compose_event fd input2 s4).2 =
          "event: piface\ndata: ".toList ++ lsb_first_text input2 ++ "\n\n".toList := by
  have hs1 := (process_put_request_returned from_browser put_fd ack_ok s s1 hput).2
  have hes : s1.event_stream = s.event_stream := by rw [hs1]
  have hew : s1.event_waiting = fun _ => true := by rw [hs1]
  let s1c : State := { s1 with closed := s1.closed ++ [put_fd] }
  have hflags : ∀ j, s1c.event_stream j = fd → s1c.event_waiting j = true := by
    intro j _
    show s1.event_waiting j = true
    rw [hew]
  obtain ⟨s2, s3, s4, hr2, hp, hr4, _, ht1, ht2⟩ :=
    texts_after_put fd hfd s1c others1 others2 h1 h2 input1 input2
  have hstep := step_put_returned from_browser put_fd ack_ok s s1 hput
  have hi1 : s1c.event_stream i = fd := by
    show s1.event_stream i = fd
    rw [hes]; exact hi
  refine ⟨s2, s3, s4, ?_, hp, hr4, output_text_returned from_browser put_fd ack_ok s s1 hput,
    ?_, ?_, ht2⟩
  · rw [run, hstep]; exact hr2
  · have hpos := dirty_count_pos fd s1c i hi1 (hflags i hi1)
    obtain ⟨k, hk⟩ : ∃ k, dirty_count fd s1c = k + 1 := ⟨dirty_count fd s1c - 1, by omega⟩
    refine ⟨copies k (output_text s1) ++ event_tail, ?_⟩
    rw [ht1, hk, copies]
    show event_lead ++ lsb_first_text input1 ++ (output_text s1 ++ copies k (output_text s1))
      ++ event_tail = event_lead ++ lsb_first_text input1 ++ output_text s1
      ++ (copies k (output_text s1) ++ event_tail)
    simp only [List.append_assoc]
  · intro hu
    have hu1 : ∀ j, s1c.event_stream j = fd → j = i := by
      intro j hj
      apply hu
      have : s1.event_stream j = fd := hj
      rwa [hes] at this
    rw [ht1, dirty_count_single s1c fd i hi1 hu1, if_pos (hflags i hi1)]
    show event_lead ++ lsb_first_text input1 ++ (output_text s1 ++ []) ++ event_tail = _
    rw [List.append_nil]
    rfl

/-- Claim C2 for the subscriber 5 in slot 0, the request `PUT /x?b3=1 HTTP/1.1` of
connection 7, and steps of the connections 6 and 8 around the two passes. -/
theorem C2_put_delivered_once_witness :
    (0 : Int) ≤ 5 ∧ one_subscriber.event_stream 0 = 5
    ∧ process_put_request sample_put 7 true one_subscriber =
        .returned () (process_put_request sample_put 7 true one_subscriber).final
    ∧ (∀ e ∈ [Ev.tick 6 0 true, Ev.register 8], e.quiet 5)
    ∧ (∀ e ∈ [Ev.unregister 8], e.quiet 5)
    ∧ ∃ s2 s3 s4,
        run (.put sample_put 7 true :: [Ev.tick 6 0 true, Ev.register 8]) one_subscriber
          = some s2
      ∧ send_events_pass 5 5 true s2 = .returned () s3
      ∧ run [Ev.unregister 8] s3 = some s4
      ∧ output_text (process_put_request sample_put 7 true one_subscriber).final =
          lsb_first_text (process_put_request sample_put 7 true one_subscriber).final.pif_output
      ∧ (∃ more, (compose_event 5 5 s2).2 =
          "event: piface\ndata: ".toList ++ lsb_first_text 5
            ++ output_text (process_put_request sample_put 7 true one_subscriber).final
            ++ more)
      ∧ ((∀ j, one_subscriber.event_stream j = 5 → j = 0) →
          (compose_event 5 5 s2).2 =
            "event: piface\ndata: ".toList ++ lsb_first_text 5
              ++ output_text (process_put_request sample_put 7 true one_subscriber).final
              ++ "\n\n".toList)
      ∧ (compose_event 5 6 s4).2 =
          "event: piface\ndata: ".toList ++ lsb_first_text 6 ++ "\n\n".toList :=
  ⟨by decide, rfl, rfl, by simp [Ev.quiet], by simp [Ev.quiet],
    C2_put_delivered_once one_subscriber 5 (by decide) 0 rfl sample_put 7 true _ rfl
      [Ev.tick 6 0 true, Ev.register 8] [Ev.unregister 8]
      (by simp [Ev.quiet]) (by simp [Ev.quiet]) 5 6⟩

/-- Claim C3.  For every input value and every state in which the connection `fd` holds
exactly one slot `i`, the event text `send_events` composes in one pass is exactly the
text `event: piface\ndata: `, then the 8-character LSB-first rendering of the input
value, then the 8-character master output string if and only if the dirty flag of slot
`i` was set, then two newlines; and after the pass the dirty flag of slot `i` is clear. -/
theorem C3_event_text (s : State) (fd : Int) (input : Nat) (i : Fin 10)
    (hi : s.event_stream i = fd) (hu : ∀ j, s.event_stream j = fd → j = i) :
    (compose_event fd input s).2 =
        "event: piface\ndata: ".toList ++ lsb_first_text input
          ++ (if s.event_waiting i = true then output_text s else []) ++ "\n\n".toList
      ∧ (compose_event fd input s).1.event_waiting i = false := by
  rw [compose_event_eq, dirty_count_single s fd i hi hu]
  constructor
  · cases h : s.event_waiting i
    · simp only [copies, Bool.false_eq_true, if_false]; rfl
    · simp only [copies, if_true, List.append_nil]; rfl
  · simp [hi]

/-- Claim C3 for the subscriber 5 in slot 0 after the request `PUT /x?b3=1 HTTP/1.1`. -/
theorem C3_event_text_witness :
    (process_put_request sample_put 7 true one_subscriber).final.event_stream 0 = 5
    ∧ (∀ j, (process_put_request sample_put 7 true one_subscriber).final.event_stream j = 5
        → j = 0)
    ∧ (compose_event 5 5 (process_put_request sample_put 7 true one_subscriber).final).2 =
        "event: piface\ndata: ".toList ++ lsb_first_text 5
          ++ (if (process_put_request sample_put 7 true one_subscriber).final.event_waiting 0
                = true
              then output_text (process_put_request sample_put 7 true one_subscriber).final
              else [])
          ++ "\n\n".toList
    ∧ (compose_event 5 5
        (process_put_request sample_put 7 true one_subscriber).final).1.event_waiting 0
        = false :=
  ⟨rfl, by decide,
    C3_event_text (process_put_request sample_put 7 true one_subscriber).final 5 5 0 rfl
      (by decide)⟩

/-- Claim C4, the code at a failing input: the request `PUT /x?b3=1 HTTP/1.1` of
connection 7 while connection 5 holds slot 0, the acknowledgement failing to be written.
The register of the device and `pif_output` take the new value 8, and the thread ends
before the master output string is rewritten and before any dirty flag is set: every
flag is still clear and the string is still the eight NUL bytes `initialise` left. -/
theorem C4_failed_acknowledgement :
    ∃ s1, process_put_request sample_put 7 false one_subscriber = .exited s1
      ∧ s1.device = 8 ∧ s1.pif_output = 8
      ∧ s1.event_stream 0 = 5
      ∧ (∀ j, s1.event_waiting j = false)
      ∧ output_text s1 = [NUL, NUL, NUL, NUL, NUL, NUL, NUL, NUL]
      ∧ output_text s1 ≠ lsb_first_text s1.pif_output := by
  refine ⟨_, rfl, rfl, rfl, rfl, fun _ => rfl, rfl, by decide⟩

/-- Claim C5.  The connection `fd` holds exactly one slot.  Between two of its passes
other connections make any steps, among them PUTs, the last of which is processed (its
`process_put_request` returns) and leaves the output value `sb.pif_output`.  Then the
next event text composed for `fd` contains exactly one output segment, the LSB-first
rendering of that last output value, and the event text after that contains none. -/
theorem C5_puts_coalesced (s : State) (fd : Int) (hfd : 0 ≤ fd) (i : Fin 10)
    (hi : s.event_stream i = fd) (hu : ∀ j, s.event_stream j = fd → j = i)
    (earlier : List Ev) (hearlier : ∀ e ∈ earlier, e.foreign fd)
    (sa : State) (hrun : run earlier s = some sa)
    (from_browser : List Char) (put_fd : Int) (ack_ok : Bool) (sb : State)
    (hput : process_put_request from_browser put_fd ack_ok sa = .returned () sb)
    (others1 others2 : List Ev)
    (h1 : ∀ e ∈ others1, e.quiet fd) (h2 : ∀ e ∈ others2, e.quiet fd) (input1 input2 : Nat) :
    ∃ s2 s3 s4,
      run (earlier ++ .put from_browser put_fd ack_ok :: others1) s = some s2
      ∧ send_events_pass fd input1 true s2 = .returned () s3
      ∧ run others2 s3 = some s4
      ∧ s2.pif_output = sb.pif_output
      ∧ (compose_event fd input1 s2).2 =
          "event: piface\ndata: ".toList ++ lsb_first_text input1
            ++ lsb_first_text sb.pif_output ++ "\n\n".toList
      ∧ (compose_event fd input2 s4).2 =
          "event: piface\ndata: ".toList ++ lsb_first_text input2 ++ "\n\n".toList := by
  have hslots := run_foreign fd hfd earlier hearlier s sa hrun
  have hsb := (process_put_request_returned from_browser put_fd ack_ok sa sb hput).2
  have hes : sb.event_stream = sa.event_stream := by rw [hsb]
  have hew : sb.event_waiting = fun _ => true := by rw [hsb]
  let sbc : State := { sb with closed := sb.closed ++ [put_fd] }
  obtain ⟨s2, s3, s4, hr2, hp, hr4, hv, ht1, ht2⟩ :=
    texts_after_put fd hfd sbc others1 others2 h1 h2 input1 input2
  have hstep := step_put_returned from_browser put_fd ack_ok sa sb hput
  have hi1 : sbc.event_stream i = fd := by
    show sb.event_stream i = fd
    rw [hes]; exact (hslots i).mpr hi
  have hu1 : ∀ j, sbc.event_stream j = fd → j = i := by
    intro j hj
    apply hu
    have : sb.event_stream j = fd := hj
    rw [hes] at this
    exact (hslots j).mp this
  have hw1 : sbc.event_waiting i = true := by
    show sb.event_waiting i = true
    rw [hew]
  refine ⟨s2, s3, s4, ?_, hp, hr4, hv.2.2.2, ?_, ht2⟩
  · rw [run_append earlier _ s sa hrun, run, hstep]; exact hr2
  · rw [ht1, dirty_count_single sbc fd i hi1 hu1, if_pos hw1]
    have ho : output_text sbc = lsb_first_text sb.pif_output :=
      output_text_returned from_browser put_fd ack_ok sa sb hput
    rw [ho]
    show event_lead ++ lsb_first_text input1 ++ (lsb_first_text sb.pif_output ++ [])
      ++ event_tail = _
    rw [List.append_nil]
    rfl

/-- Claim C5 for the subscriber 5 in slot 0 and two PUTs between its passes: bit 3 set
by connection 7, then bit 0 set by connection 8. -/
theorem C5_puts_coalesced_witness :
    (0 : Int) ≤ 5 ∧ one_subscriber.event_stream 0 = 5
    ∧ (∀ j, one_subscriber.event_stream j = 5 → j = 0)
    ∧ (∀ e ∈ [Ev.put sample_put 7 true, Ev.tick 6 0 true], e.foreign 5)
    ∧ run [Ev.put sample_put 7 true, Ev.tick 6 0 true] one_subscriber = some two_puts_before
    ∧ process_put_request "PUT /x?b0=1 HTTP/1.1".toList 8 true two_puts_before =
        .returned ()
          (process_put_request "PUT /x?b0=1 HTTP/1.1".toList 8 true two_puts_before).final
    ∧ (∀ e ∈ [Ev.register 9], e.quiet 5) ∧ (∀ e ∈ [Ev.unregister 9], e.quiet 5)
    ∧ ∃ s2 s3 s4,
        run ([Ev.put sample_put 7 true, Ev.tick 6 0 true]
              ++ .put "PUT /x?b0=1 HTTP/1.1".toList 8 true :: [Ev.register 9])
            one_subscriber = some s2
      ∧ send_events_pass 5 5 true s2 = .returned () s3
      ∧ run [Ev.unregister 9] s3 = some s4
      ∧ s2.pif_output =
          (process_put_request "PUT /x?b0=1 HTTP/1.1".toList 8 true
            two_puts_before).final.pif_output
      ∧ (compose_event 5 5 s2).2 =
          "event: piface\ndata: ".toList ++ lsb_first_text 5
            ++ lsb_first_text (process_put_request "PUT /x?b0=1 HTTP/1.1".toList 8 true
                two_puts_before).final.pif_output
            ++ "\n\n".toList
      ∧ (compose_event 5 6 s4).2 =
          "event: piface\ndata: ".toList ++ lsb_first_text 6 ++ "\n\n".toList :=
  ⟨by decide, rfl, by decide, by simp [Ev.foreign], rfl, rfl, by simp [Ev.quiet],
    by simp [Ev.quiet],
    C5_puts_coalesced one_subscriber 5 (by decide) 0 rfl (by decide)
      [Ev.put sample_put 7 true, Ev.tick 6 0 true] (by simp [Ev.foreign])
      two_puts_before rfl "PUT /x?b0=1 HTTP/1.1".toList 8 true _ rfl
      [Ev.register 9] [Ev.unregister 9] (by simp [Ev.quiet]) (by simp [Ev.quiet]) 5 6⟩

/-- Claim C6.  After `process_put_request` has written its acknowledgement and returned,
the 8-character master output string is the LSB-first rendering of `pif_output`: for
every `i` from 0 to 7, character `i` is `1` if bit `i` of `pif_output` is set and `0`
otherwise.  In particular a request for bit 3, value 1, starting from the output value 0
yields the string `00010000`. -/
theorem C6_master_string (from_browser : List Char) (fd : Int) (ack_ok : Bool)
    (s s1 : State) (h : process_put_request from_browser fd ack_ok s = .returned () s1) :
    (∀ i : Fin 8, s1.output i = if s1.pif_output.testBit i.val = true then '1' else '0')
    ∧ output_text s1 = lsb_first_text s1.pif_output
    ∧ (∀ (pre rest : List Char) (c1 c3 : Char), '?' ∉ pre →
        from_browser = pre ++ '?' :: c1 :: '3' :: c3 :: '1' :: rest → s.pif_output = 0 →
        output_text s1 = "00010000".toList) := by
  have hs1 := (process_put_request_returned from_browser fd ack_ok s s1 h).2
  refine ⟨?_, output_text_returned from_browser fd ack_ok s s1 h, ?_⟩
  · intro i
    have : s1.output = master_loop s1.pif_output bit_indices 1 s.output := by
      conv_lhs => rw [hs1]
    rw [this, master_loop_eq]
  · intro pre rest c1 c3 hpre hreq hzero
    rw [output_text_returned from_browser fd ack_ok s s1 h]
    have h8 : s1.pif_output = 8 := by
      rw [hreq, process_put_request_bit3 s fd ack_ok pre rest c1 c3 hpre, put_publish_eq] at h
      split at h
      · injection h with _ h
        rw [← h]
        show s.pif_output ||| 8 = 8
        rw [hzero]; rfl
      · cases h
    rw [h8]
    decide

/-- Claim C6 for the request `PUT /x?b3=1 HTTP/1.1` on the state `initialise` leaves. -/
theorem C6_master_string_witness :
    process_put_request sample_put 7 true (initialise boot) =
        .returned () (process_put_request sample_put 7 true (initialise boot)).final
    ∧ '?' ∉ "PUT /x".toList
    ∧ sample_put = "PUT /x".toList ++ '?' :: 'b' :: '3' :: '=' :: '1' :: " HTTP/1.1".toList
    ∧ (initialise boot).pif_output = 0
    ∧ output_text (process_put_request sample_put 7 true (initialise boot)).final
        = "00010000".toList :=
  ⟨rfl, by decide, by decide, rfl,
    (C6_master_string sample_put 7 true (initialise boot) _ rfl).2.2 "PUT /x".toList
      " HTTP/1.1".toList 'b' '=' (by decide) (by decide) rfl⟩

/-- Claim C7.  For every state and every handle `fd`, `register_event_stream (fd)`
stores `fd` in the lowest-indexed free (negative) slot and changes no other handle, no
dirty flag and nothing else; when all 10 slots are occupied it changes nothing at all,
so that every event text composed afterwards is the one composed without the call. -/
theorem C7_register_lowest_free (s : State) (fd : Int) :
    (∀ i, s.event_stream i < 0 → (∀ j, j < i → 0 ≤ s.event_stream j) →
        register_event_stream fd s =
          { s with event_stream := Function.update s.event_stream i fd })
    ∧ ((∀ j, 0 ≤ s.event_stream j) →
        register_event_stream fd s = s
        ∧ ∀ (g : Int) (input : Nat),
            compose_event g input (register_event_stream fd s) = compose_event g input s) := by
  constructor
  · intro i hfree hlow
    unfold register_event_stream
    rw [register_loop_first fd s.event_stream i hfree slot_indices (mem_slot_indices i)
      slot_indices_sorted hlow]
  · intro hfull
    have h : register_event_stream fd s = s := by
      unfold register_event_stream
      rw [register_loop_full fd s.event_stream hfull]
    exact ⟨h, fun g input => by rw [h]⟩

/-- Claim C7 for the handle 9: with slot 0 taken it goes to slot 1, and with every slot
taken nothing changes. -/
theorem C7_register_lowest_free_witness :
    (one_subscriber.event_stream 1 < 0 ∧ (∀ j, j < (1 : Fin 10) → 0 ≤ one_subscriber.event_stream j)
      ∧ register_event_stream 9 one_subscriber =
          { one_subscriber with event_stream := Function.update one_subscriber.event_stream 1 9 })
    ∧ ((∀ j, 0 ≤ full_registry.event_stream j)
      ∧ register_event_stream 9 full_registry = full_registry) :=
  ⟨⟨by decide, by decide,
      (C7_register_lowest_free one_subscriber 9).1 1 (by decide) (by decide)⟩,
    ⟨by decide, ((C7_register_lowest_free full_registry 9).2 (by decide)).1⟩⟩

/-- The value -1 marks a free slot: after `unregister_event_stream (-1)` on the state
`initialise` leaves, slot 0 still contains -1 and holds no handle. -/
theorem unregister_keeps_free_marker :
    (unregister_event_stream (-1) (initialise boot)).event_stream 0 = -1
    ∧ slot_handle (unregister_event_stream (-1) (initialise boot)) 0 = none := by
  decide

/-- Claim C8.  For every state and every handle `fd` held by no slot,
`unregister_event_stream (fd)` leaves the handle of every slot and every dirty flag
unchanged; for every state and every `fd`, after `unregister_event_stream (fd)` no slot
holds `fd`, and calling it twice gives the same state as calling it once.  In terms of
the stored values: when no slot contains the value `fd` the whole state is unchanged, and
for `fd` other than -1, the mark of a free slot, no slot contains `fd` afterwards. -/
theorem C8_unregister_idempotent (s : State) (fd : Int) :
    ((∀ j, ¬ holds s j fd) →
        (∀ j, slot_handle (unregister_event_stream fd s) j = slot_handle s j)
        ∧ (unregister_event_stream fd s).event_waiting = s.event_waiting)
    ∧ (∀ j, ¬ holds (unregister_event_stream fd s) j fd)
    ∧ unregister_event_stream fd (unregister_event_stream fd s) = unregister_event_stream fd s
    ∧ ((∀ j, s.event_stream j ≠ fd) → unregister_event_stream fd s = s)
    ∧ (fd ≠ -1 → ∀ j, (unregister_event_stream fd s).event_stream j ≠ fd) := by
  refine ⟨?_, ?_, (unregister_twice fd s).2, ?_, (unregister_twice fd s).1⟩
  · intro h
    refine ⟨fun j => ?_, by rw [unregister_event_stream_eq]⟩
    rw [unregister_event_stream_eq]
    show (if (if s.event_stream j = fd then (-1 : Int) else s.event_stream j) < 0 then none
      else some (if s.event_stream j = fd then (-1 : Int) else s.event_stream j))
      = if s.event_stream j < 0 then none else some (s.event_stream j)
    by_cases hj : s.event_stream j = fd
    · have hneg : s.event_stream j < 0 := by
        by_contra hnn
        apply h j
        show (if s.event_stream j < 0 then none else some (s.event_stream j)) = some fd
        rw [if_neg hnn, hj]
      simp [hj, hneg, hj ▸ hneg]
    · simp [hj]
  · intro j hj
    have hj2 : (if (unregister_event_stream fd s).event_stream j < 0 then none
        else some ((unregister_event_stream fd s).event_stream j)) = some fd := hj
    by_cases hneg : (unregister_event_stream fd s).event_stream j < 0
    · rw [if_pos hneg] at hj2; cases hj2
    · rw [if_neg hneg] at hj2
      have heq : (unregister_event_stream fd s).event_stream j = fd := Option.some.inj hj2
      have hne : fd ≠ -1 := by
        intro e
        rw [heq, e] at hneg
        exact hneg (by decide)
      exact (unregister_twice fd s).1 hne j heq
  · intro h
    rw [unregister_event_stream_eq]
    have : (fun j => if s.event_stream j = fd then -1 else s.event_stream j) = s.event_stream := by
      funext j; rw [if_neg (h j)]
    rw [this]

/-- Claim C8 for the absent handle 7 and the held handle 5. -/
theorem C8_unregister_idempotent_witness :
    ((∀ j, ¬ holds one_subscriber j 7)
      ∧ (∀ j, slot_handle (unregister_event_stream 7 one_subscriber) j
            = slot_handle one_subscriber j)
      ∧ (unregister_event_stream 7 one_subscriber).event_waiting
          = one_subscriber.event_waiting)
    ∧ ((∀ j, one_subscriber.event_stream j ≠ 7)
      ∧ unregister_event_stream 7 one_subscriber = one_subscriber)
    ∧ ((5 : Int) ≠ -1 ∧ ∀ j, (unregister_event_stream 5 one_subscriber).event_stream j ≠ 5) :=
  ⟨⟨by unfold holds; decide,
      (C8_unregister_idempotent one_subscriber 7).1 (by unfold holds; decide)⟩,
    ⟨by decide, (C8_unregister_idempotent one_subscriber 7).2.2.2.1 (by decide)⟩,
    ⟨by decide, (C8_unregister_idempotent one_subscriber 5).2.2.2.2 (by decide)⟩⟩

/-- Claim C9.  When the write of an event text to the connection `fd` fails in a pass of
`send_events`, entered in any state, the loop ends there (the thread is in
`pthread_exit`, the remaining passes never happen) and the end of the thread unregisters
the connection: afterwards no slot holds `fd`, every slot that held it is free, and a
later `register_event_stream` finds a slot.  The same for the whole thread of a GET for
`events.qif`: after any number of successful passes, a failing write ends
`accept_connection` with no slot holding `fd`. -/
theorem C9_failed_write_unregisters (s : State) (fd : Int) (hfd : 0 ≤ fd) (input : Nat)
    (rest : List (Nat × Bool)) :
    (send_events fd ((input, false) :: rest) s = .exited (compose_event fd input s).1
      ∧ ∃ t, thread_end fd (send_events fd ((input, false) :: rest) s) = .exited t
          ∧ (∀ j, t.event_stream j ≠ fd)
          ∧ (∀ j, s.event_stream j = fd → t.event_stream j < 0)
          ∧ ((∃ j, s.event_stream j = fd) →
              ∀ g, ∃ k, (register_event_stream g t).event_stream k = g))
    ∧ ∀ (w : World) (first : List Char) (oks : List (Nat × Bool)),
        w.sockopt_ok = true → w.first = some first → 10 < (first.take 4998).length →
        get_request_type (cstr (request_buffer first w.more)) = REQUEST_GET →
        get_page_name (cstr (request_buffer first w.more)) = .found "events.qif".toList →
        w.header_ok = true → (∀ x ∈ oks, x.2 = true) →
        w.ticks = oks ++ (input, false) :: rest →
        ∃ t, accept_connection fd w s = .exited t ∧ ∀ j, t.event_stream j ≠ fd := by
  have hne : fd ≠ -1 := by omega
  constructor
  · refine ⟨send_events_failed_pass fd input rest s, ?_⟩
    rw [send_events_failed_pass]
    refine ⟨unregister_event_stream fd (compose_event fd input s).1, rfl, ?_, ?_, ?_⟩
    · exact (unregister_twice fd _).1 hne
    · intro j hj
      rw [unregister_event_stream_eq, compose_event_eq]
      show (if s.event_stream j = fd then (-1 : Int) else s.event_stream j) < 0
      rw [if_pos hj]; decide
    · intro hex g
      obtain ⟨j, hj⟩ := hex
      apply register_loop_stores g slot_indices
      refine ⟨j, mem_slot_indices j, ?_⟩
      rw [unregister_event_stream_eq, compose_event_eq]
      show (if s.event_stream j = fd then (-1 : Int) else s.event_stream j) < 0
      rw [if_pos hj]; decide
  · intro w first oks hso hfirst hlen hget hname hhdr hoks hticks
    unfold accept_connection
    rw [hfirst]
    simp only [hso, hlen, hget, if_true, Bool.true_eq_false, if_false]
    rw [process_get_request_events _ fd w s hname, open_event_stream_eq,
      if_pos ⟨hfd, hhdr⟩, hticks]
    obtain ⟨u, hu⟩ := send_events_until_failure fd input rest oks hoks
      (register_event_stream fd { s with wire := s.wire ++ [(fd, event_header)] })
    refine ⟨unregister_event_stream fd u, ?_, (unregister_twice fd u).1 hne⟩
    simp only [Outcome.andThen, hu]
    rfl

/-- Claim C9 for the connection 9 that subscribes next to the subscriber 5, receives one
event text and fails to receive the second. -/
theorem C9_failed_write_unregisters_witness :
    (0 : Int) ≤ 9
    ∧ (plain_world sample_get [(1, true), (3, false)]).sockopt_ok = true
    ∧ (plain_world sample_get [(1, true), (3, false)]).first = some sample_get
    ∧ 10 < (sample_get.take 4998).length
    ∧ get_request_type (cstr (request_buffer sample_get [])) = REQUEST_GET
    ∧ get_page_name (cstr (request_buffer sample_get [])) = .found "events.qif".toList
    ∧ (∀ x ∈ [((1 : Nat), true)], x.2 = true)
    ∧ ∃ t, accept_connection 9 (plain_world sample_get [(1, true), (3, false)])
          one_subscriber = .exited t
        ∧ ∀ j, t.event_stream j ≠ 9 :=
  ⟨by decide, rfl, rfl, by decide, by decide, rfl, by simp,
    (C9_failed_write_unregisters one_subscriber 9 (by decide) 3 []).2
      (plain_world sample_get [(1, true), (3, false)]) sample_get [(1, true)]
      rfl rfl (by decide) (by decide) rfl rfl (by simp) rfl⟩

/-- Claim C10, the code with every slot occupied: a GET for `events.qif` on the new
connection 30 writes the header of the event stream and then, in the first pass of the
loop of `send_events`, an event text to that connection. -/
theorem C10_events_when_full :
    (∀ j, 0 ≤ full_registry.event_stream j)
    ∧ ((process_get_request sample_get 30 (plain_world sample_get [(5, true)])
          full_registry).state.map fun t => t.wire) =
      some [(30, event_header), (30, "event: piface\ndata: 10100000\n\n".toList)] := by
  constructor
  · decide
  · decide

/-- Claim C10 as amended.  When all 10 slots are occupied, a GET for `events.qif` on a
new connection `fd` writes the header of the event stream, leaves the registry and the
flags as they were, and still enters the loop of `send_events`: every pass whose write
succeeds sends an event text to that connection, made of the 8 input characters and no
output segment; and as long as no slot holds `fd`, in any state, its event text has no
output segment. -/
theorem C10_events_without_slot (s : State) (fd : Int) (hfd : 0 ≤ fd)
    (hfull : ∀ j, 0 ≤ s.event_stream j) (hnew : ∀ j, s.event_stream j ≠ fd)
    (from_browser : List Char) (w : World)
    (hname : get_page_name from_browser = .found "events.qif".toList)
    (hheader : w.header_ok = true) (hticks : ∀ x ∈ w.ticks, x.2 = true) :
    (∃ t, process_get_request from_browser fd w s = .running t
      ∧ t.wire = s.wire ++ (fd, event_header) :: w.ticks.map (fun x =>
          (fd, "event: piface\ndata: ".toList ++ lsb_first_text x.1 ++ "\n\n".toList))
      ∧ t.event_stream = s.event_stream ∧ t.event_waiting = s.event_waiting)
    ∧ ∀ (u : State) (input : Nat), (∀ j, u.event_stream j ≠ fd) →
        (compose_event fd input u).2 =
          "event: piface\ndata: ".toList ++ lsb_first_text input ++ "\n\n".toList := by
  constructor
  · rw [process_get_request_events from_browser fd w s hname, open_event_stream_eq,
      if_pos ⟨hfd, hheader⟩]
    have hreg : register_event_stream fd { s with wire := s.wire ++ [(fd, event_header)] }
        = { s with wire := s.wire ++ [(fd, event_header)] } := by
      unfold register_event_stream
      rw [register_loop_full fd _ hfull]
    rw [hreg]
    obtain ⟨t, ht, hw, hes, hew, _, _⟩ := send_events_unregistered fd hfd w.ticks hticks
      { s with wire := s.wire ++ [(fd, event_header)] } hnew
    refine ⟨t, ht, ?_, hes, hew⟩
    rw [hw]
    show s.wire ++ [(fd, event_header)] ++ _ = _
    rw [List.append_assoc]
    rfl
  · intro u input hu
    rw [compose_event_eq, dirty_count_zero fd u (fun j hj => absurd hj (hu j))]
    simp only [copies, List.append_nil]
    rfl

/-- Claim C10 as amended, for the new connection 30 and every slot occupied. -/
theorem C10_events_without_slot_witness :
    (0 : Int) ≤ 30 ∧ (∀ j, 0 ≤ full_registry.event_stream j)
    ∧ (∀ j, full_registry.event_stream j ≠ 30)
    ∧ get_page_name sample_get = .found "events.qif".toList
    ∧ (plain_world sample_get [(5, true)]).header_ok = true
    ∧ (∀ x ∈ (plain_world sample_get [(5, true)]).ticks, x.2 = true)
    ∧ ∃ t, process_get_request sample_get 30 (plain_world sample_get [(5, true)])
          full_registry = .running t
        ∧ t.wire = full_registry.wire ++ (30, event_header) ::
            (plain_world sample_get [(5, true)]).ticks.map (fun x =>
              (30, "event: piface\ndata: ".toList ++ lsb_first_text x.1 ++ "\n\n".toList))
        ∧ t.event_stream = full_registry.event_stream
        ∧ t.event_waiting = full_registry.event_waiting :=
  ⟨by decide, by decide, by decide, rfl, rfl, by simp [plain_world],
    (C10_events_without_slot full_registry 30 (by decide) (by decide) (by decide)
      sample_get (plain_world sample_get [(5, true)]) rfl rfl (by simp [plain_world])).1⟩

/-! ## The registry as a set -/

theorem holds_iff (s : State) (j : Fin 10) (fd : Int) :
    holds s j fd ↔ 0 ≤ fd ∧ s.event_stream j = fd := by
  unfold holds slot_handle
  by_cases h : s.event_stream j < 0
  · rw [if_pos h]
    constructor
    · intro e; cases e
    · intro e; omega
  · rw [if_neg h]
    constructor
    · intro e
      have := Option.some.inj e
      omega
    · intro e; rw [e.2]

theorem register_loop_cases (fd : Int) :
    ∀ (l : List (Fin 10)) (es : Fin 10 → Int),
      register_loop fd l es = es ∨
        ∃ i, es i < 0 ∧ register_loop fd l es = Function.update es i fd := by
  intro l
  induction l with
  | nil => intro es; exact Or.inl rfl
  | cons a rest ih =>
    intro es
    rw [register_loop]
    split
    · rename_i h; exact Or.inr ⟨a, h, rfl⟩
    · exact ih es

theorem register_keeps_keyed (s : State) (fd : Int)
    (hnew : ∀ j, s.event_stream j ≠ fd) (h : keyed_by_handle s) :
    keyed_by_handle (register_event_stream fd s) := by
  rcases register_loop_cases fd slot_indices s.event_stream with he | ⟨k, _, he⟩
  · have : register_event_stream fd s = s := by
      unfold register_event_stream; rw [he]
    rw [this]; exact h
  · intro g i j hi hj
    rw [holds_iff] at hi hj
    have hei : (register_event_stream fd s).event_stream i
        = Function.update s.event_stream k fd i := by
      unfold register_event_stream; rw [he]
    have hej : (register_event_stream fd s).event_stream j
        = Function.update s.event_stream k fd j := by
      unfold register_event_stream; rw [he]
    rw [hei] at hi
    rw [hej] at hj
    by_cases hik : i = k
    · by_cases hjk : j = k
      · rw [hik, hjk]
      · rw [hik, Function.update_same] at hi
        rw [Function.update_noteq hjk] at hj
        exact absurd (hj.2.trans hi.2.symm) (hnew j)
    · by_cases hjk : j = k
      · rw [hjk, Function.update_same] at hj
        rw [Function.update_noteq hik] at hi
        exact absurd (hi.2.trans hj.2.symm) (hnew i)
      · rw [Function.update_noteq hik] at hi
        rw [Function.update_noteq hjk] at hj
        exact h g i j ((holds_iff s i g).mpr hi) ((holds_iff s j g).mpr hj)

theorem unregister_keeps_keyed (s : State) (fd : Int) (h : keyed_by_handle s) :
    keyed_by_handle (unregister_event_stream fd s) := by
  intro g i j hi hj
  rw [holds_iff, unregister_event_stream_eq] at hi hj
  have hi2 : (if s.event_stream i = fd then (-1 : Int) else s.event_stream i) = g := hi.2
  have hj2 : (if s.event_stream j = fd then (-1 : Int) else s.event_stream j) = g := hj.2
  have hg := hi.1
  by_cases hfi : s.event_stream i = fd
  · rw [if_pos hfi] at hi2; omega
  · by_cases hfj : s.event_stream j = fd
    · rw [if_pos hfj] at hj2; omega
    · rw [if_neg hfi] at hi2
      rw [if_neg hfj] at hj2
      exact h g i j ((holds_iff s i g).mpr ⟨hg, hi2⟩) ((holds_iff s j g).mpr ⟨hg, hj2⟩)

theorem initialise_keyed (s : State) : keyed_by_handle (initialise s) := by
  intro g i j hi _
  rw [holds_iff] at hi
  have : (-1 : Int) = g := hi.2
  omega

theorem fresh_calls_keyed :
    ∀ (l : List Ev) (s : State), fresh_calls l s → keyed_by_handle s →
      ∃ t, run l s = some t ∧ keyed_by_handle t := by
  intro l
  induction l with
  | nil => intro s _ h; exact ⟨s, rfl, h⟩
  | cons e rest ih =>
    intro s hf h
    cases e with
    | put r g a => exact absurd hf (by simp [fresh_calls])
    | tick g i ok => exact absurd hf (by simp [fresh_calls])
    | register g =>
      have hf2 : 0 ≤ g ∧ (∀ j, s.event_stream j ≠ g)
          ∧ fresh_calls rest (register_event_stream g s) := hf
      exact ih _ hf2.2.2 (register_keeps_keyed s g hf2.2.1 h)
    | unregister g =>
      have hf2 : 0 ≤ g ∧ fresh_calls rest (unregister_event_stream g s) := hf
      exact ih _ hf2.2 (unregister_keeps_keyed s g h)

/-- Claim C11, the code on two calls with the same handle: after `initialise`,
`register_event_stream (5)` twice leaves the handle 5 in slot 0 and in slot 1. -/
theorem C11_same_handle_twice :
    ∃ t, run [Ev.register 5, Ev.register 5] (initialise boot) = some t
      ∧ holds t 0 5 ∧ holds t 1 5 ∧ ¬ keyed_by_handle t := by
  have h0 : holds (register_event_stream 5 (register_event_stream 5 (initialise boot))) 0 5 := by
    unfold holds; decide
  have h1 : holds (register_event_stream 5 (register_event_stream 5 (initialise boot))) 1 5 := by
    unfold holds; decide
  refine ⟨_, rfl, h0, h1, ?_⟩
  intro h
  exact absurd (h 5 0 1 h0 h1) (by decide)

/-- Claim C11 as amended.  In every state reached from the one `initialise` establishes
by calls of `register_event_stream` and `unregister_event_stream` with non-negative
handles, each handle being registered only while no slot holds it, no handle is held by
more than one slot. -/
theorem C11_keyed_by_handle (s0 : State) (l : List Ev) (h : fresh_calls l (initialise s0)) :
    ∃ t, run l (initialise s0) = some t ∧ keyed_by_handle t :=
  fresh_calls_keyed l (initialise s0) h (initialise_keyed s0)

/-- Claim C11 as amended, for the calls register 5, register 6, unregister 5,
register 5. -/
theorem C11_keyed_by_handle_witness :
    fresh_calls [Ev.register 5, Ev.register 6, Ev.unregister 5, Ev.register 5]
        (initialise boot)
    ∧ ∃ t, run [Ev.register 5, Ev.register 6, Ev.unregister 5, Ev.register 5]
          (initialise boot) = some t ∧ keyed_by_handle t :=
  ⟨by
      simp only [fresh_calls]
      refine ⟨by decide, by decide, by decide, by decide, by decide, by decide, by decide,
        trivial⟩,
    C11_keyed_by_handle boot [Ev.register 5, Ev.register 6, Ev.unregister 5, Ev.register 5]
      (by
        simp only [fresh_calls]
        refine ⟨by decide, by decide, by decide, by decide, by decide, by decide, by decide,
          trivial⟩)⟩

/-! ## Page names -/

theorem after_slash_append (pre rest : List Char) (h : '/' ∉ pre) :
    after_slash (pre ++ '/' :: rest) = some rest := by
  induction pre with
  | nil => simp [after_slash]
  | cons c cs ih =>
    have hc : c ≠ '/' := fun e => h (by simp [e])
    have hcs : '/' ∉ cs := fun e => h (by simp [e])
    rw [List.cons_append, after_slash, if_pos hc, ih hcs]

theorem name_end_append (name rest : List Char) (c : Char)
    (hname : ∀ x ∈ name, x ≠ ' ' ∧ x ≠ '?') (hc : c = ' ' ∨ c = '?') :
    name_end (name ++ c :: rest) = some name := by
  induction name with
  | nil =>
    have : ¬ (c ≠ ' ' ∧ c ≠ '?') := by
      rcases hc with e | e <;> simp [e]
    rw [List.nil_append, name_end, if_neg this]
  | cons x xs ih =>
    have hx := hname x (by simp)
    rw [List.cons_append, name_end, if_pos hx, ih (fun y hy => hname y (by simp [hy]))]
    rfl

/-- What `get_page_name` produces: the text between the first slash of the request and
the first space or question mark after it. -/
theorem get_page_name_eq (pre name rest : List Char) (c : Char) (hpre : '/' ∉ pre)
    (hname : ∀ x ∈ name, x ≠ ' ' ∧ x ≠ '?') (hc : c = ' ' ∨ c = '?')
    (hlen : name.length < 300) :
    get_page_name (pre ++ '/' :: (name ++ c :: rest)) =
      .found (if name = [] then "index.html".toList else name) := by
  unfold get_page_name
  rw [after_slash_append pre _ hpre]
  dsimp only
  rw [name_end_append name rest c hname hc]
  dsimp only
  rw [if_neg (by omega)]
  split <;> rfl

theorem dropWhile_not_space (method rest : List Char) (h : ' ' ∉ method) :
    (method ++ ' ' :: rest).dropWhile (fun c => decide (c ≠ ' ')) = ' ' :: rest := by
  induction method with
  | nil => simp
  | cons c cs ih =>
    have hc : c ≠ ' ' := fun e => h (by simp [e])
    have hcs : ' ' ∉ cs := fun e => h (by simp [e])
    rw [List.cons_append, List.dropWhile_cons_of_pos (by simpa using hc), ih hcs]

theorem takeWhile_name (name rest : List Char) (c : Char)
    (hname : ∀ x ∈ name, x ≠ ' ' ∧ x ≠ '?') (hc : c = ' ' ∨ c = '?') :
    (name ++ c :: rest).takeWhile (fun c => decide (c ≠ ' ') && decide (c ≠ '?')) = name := by
  induction name with
  | nil =>
    rw [List.nil_append, List.takeWhile_cons_of_neg]
    rcases hc with e | e <;> simp [e]
  | cons x xs ih =>
    have hx := hname x (by simp)
    rw [List.cons_append, List.takeWhile_cons_of_pos (by simp [hx.1, hx.2]),
      ih (fun y hy => hname y (by simp [hy]))]

theorem after_final_slash_single (name : List Char) (h : '/' ∉ name) :
    after_final_slash ('/' :: name) = name := by
  unfold after_final_slash
  rw [List.reverse_cons, List.takeWhile_append_of_pos]
  · simp
  · intro x hx
    have : x ≠ '/' := fun e => h (e ▸ List.mem_reverse.mp hx)
    simpa using this

/-- For a target path with a single slash the specification and the code agree. -/
theorem spec_page_name_single (method name rest : List Char) (c : Char)
    (hmethod : ' ' ∉ method) (hname : ∀ x ∈ name, x ≠ ' ' ∧ x ≠ '?') (hslash : '/' ∉ name)
    (hc : c = ' ' ∨ c = '?') :
    spec_page_name (method ++ ' ' :: '/' :: (name ++ c :: rest)) =
      if name = [] then "index.html".toList else name := by
  have hname2 : ∀ x ∈ '/' :: name, x ≠ ' ' ∧ x ≠ '?' := by
    intro x hx
    rcases List.mem_cons.mp hx with e | e
    · subst e; decide
    · exact hname x e
  have ht : spec_target_path (method ++ ' ' :: '/' :: (name ++ c :: rest)) = '/' :: name := by
    unfold spec_target_path
    rw [dropWhile_not_space method _ hmethod, List.drop_succ_cons, List.drop_zero]
    exact takeWhile_name ('/' :: name) rest c hname2 hc
  unfold spec_page_name
  rw [ht, after_final_slash_single name hslash]

/-- Claim C12, the code on a nested path: for `GET /a/b.html HTTP/1.1` the page name
`get_page_name` produces is `a/b.html`, the text after the first slash, while the
substring after the final slash of the target path is `b.html`. -/
theorem C12_nested_path :
    get_page_name "GET /a/b.html HTTP/1.1".toList = .found "a/b.html".toList
    ∧ spec_page_name "GET /a/b.html HTTP/1.1".toList = "b.html".toList
    ∧ "a/b.html".toList ≠ "b.html".toList := by
  refine ⟨rfl, by decide, by decide⟩

/-- Claim C12 as amended.  For every request line in which the first slash is followed by
a name of fewer than 300 characters, without space or question mark, and then by a space
or a question mark, the page name `get_page_name` produces is that name, the substring
after the first slash of the request line up to the first space or question mark, or
`index.html` when that substring is empty, and it returns 0.  When the request line is a
method, a space and a target path with no other slash, this is the substring after the
final slash of the target path. -/
theorem C12_page_name (pre name rest : List Char) (c : Char) (hpre : '/' ∉ pre)
    (hname : ∀ x ∈ name, x ≠ ' ' ∧ x ≠ '?') (hc : c = ' ' ∨ c = '?')
    (hlen : name.length < 300) :
    get_page_name (pre ++ '/' :: (name ++ c :: rest)) =
        .found (if name = [] then "index.html".toList else name)
    ∧ ∀ method : List Char, pre = method ++ [' '] → ' ' ∉ method → '/' ∉ name →
        get_page_name (pre ++ '/' :: (name ++ c :: rest)) =
          .found (spec_page_name (pre ++ '/' :: (name ++ c :: rest))) := by
  refine ⟨get_page_name_eq pre name rest c hpre hname hc hlen, ?_⟩
  intro method hm hmethod hslash
  rw [get_page_name_eq pre name rest c hpre hname hc hlen, hm, List.append_assoc,
    List.singleton_append, spec_page_name_single method name rest c hmethod hname hslash hc]

/-- Claim C12 as amended, for `GET / HTTP/1.1` and `GET /a/b.html?x HTTP/1.1`. -/
theorem C12_page_name_witness :
    ('/' ∉ "GET ".toList ∧ (∀ x ∈ ([] : List Char), x ≠ ' ' ∧ x ≠ '?')
      ∧ ((' ' : Char) = ' ' ∨ (' ' : Char) = '?') ∧ ([] : List Char).length < 300
      ∧ get_page_name ("GET ".toList ++ '/' :: ([] ++ ' ' :: "HTTP/1.1".toList))
          = .found "index.html".toList
      ∧ "GET ".toList = "GET".toList ++ [' '] ∧ ' ' ∉ "GET".toList
      ∧ '/' ∉ ([] : List Char)
      ∧ get_page_name ("GET ".toList ++ '/' :: ([] ++ ' ' :: "HTTP/1.1".toList))
          = .found (spec_page_name ("GET ".toList ++ '/' :: ([] ++ ' ' :: "HTTP/1.1".toList))))
    ∧ ((∀ x ∈ "a/b.html".toList, x ≠ ' ' ∧ x ≠ '?')
      ∧ (('?' : Char) = ' ' ∨ ('?' : Char) = '?') ∧ "a/b.html".toList.length < 300
      ∧ get_page_name ("GET ".toList ++ '/' :: ("a/b.html".toList ++ '?' :: "x HTTP/1.1".toList))
          = .found "a/b.html".toList) :=
  ⟨⟨by decide, by decide, by decide, by decide,
      (C12_page_name "GET ".toList [] "HTTP/1.1".toList ' ' (by decide) (by decide)
        (by decide) (by decide)).1,
      by decide, by decide, by decide,
      (C12_page_name "GET ".toList [] "HTTP/1.1".toList ' ' (by decide) (by decide)
        (by decide) (by decide)).2 "GET".toList (by decide) (by decide) (by decide)⟩,
    ⟨by decide, by decide, by decide,
      (C12_page_name "GET ".toList "a/b.html".toList "x HTTP/1.1".toList '?' (by decide)
        (by decide) (by decide) (by decide)).1⟩⟩

/-! ## Pages -/

theorem serve_page_eq (fd : Int) (page : List Char) (page_length : Int)
    (header_ok body_ok : Bool) (s : State) :
    serve_page fd page page_length false header_ok body_ok s =
      if 0 ≤ fd ∧ header_ok = true then
        if 0 ≤ page_length ∧ body_ok = true then
          .returned ()
            { s with wire := s.wire ++ [(fd, page_header page_length)]
                ++ [(fd, page.take page_length.toNat)] }
        else .exited { s with wire := s.wire ++ [(fd, page_header page_length)] }
      else .exited s := by
  unfold serve_page write_header sock_write
  by_cases h : 0 ≤ fd ∧ header_ok = true
  · have h1 : 0 ≤ fd ∧ 0 ≤ ((page_header page_length).length : Int) ∧ header_ok = true :=
      ⟨h.1, Int.natCast_nonneg _, h.2⟩
    by_cases h2 : 0 ≤ page_length ∧ body_ok = true
    · have h3 : 0 ≤ fd ∧ 0 ≤ page_length ∧ body_ok = true := ⟨h.1, h2.1, h2.2⟩
      simp only [h, h1, h2, h3, if_true, and_self, Outcome.andThen, Outcome.unwinding,
        Int.toNat_ofNat, List.take_length, id]
    · have h3 : ¬ (0 ≤ fd ∧ 0 ≤ page_length ∧ body_ok = true) := fun e => h2 e.2
      simp [h, h1, h2, h3, Outcome.andThen, Outcome.unwinding]
  · have h1 : ¬ (0 ≤ fd ∧ 0 ≤ ((page_header page_length).length : Int) ∧ header_ok = true) :=
      fun e => h ⟨e.1, e.2.2⟩
    simp only [h, h1, if_true, if_false, Outcome.andThen, Outcome.unwinding, id]

/-- A GET whose page name ends neither in `.png` nor in `.qif` serves the text that
`expand_page` makes of the disk page. -/
theorem process_get_request_text (from_browser : List Char) (fd : Int) (w : World)
    (s : State) (name : List Char) (hname : get_page_name from_browser = .found name)
    (hpng : test_tail_string name ".png".toList = some 0)
    (hqif : test_tail_string name ".qif".toList = some 0) :
    process_get_request from_browser fd w s =
      serve_page fd
        (expand_page (match w.load name with
          | none => error_page
          | some bytes => bytes.take 39998))
        ((expand_page (match w.load name with
          | none => error_page
          | some bytes => bytes.take 39998)).length : Nat)
        false w.header_ok w.body_ok s := by
  unfold process_get_request get_page
  rw [hname]
  dsimp only
  cases hl : w.load name <;> dsimp only <;> rw [hpng] <;> dsimp only <;>
    rw [if_neg (by decide), hqif] <;> dsimp only <;> rw [if_neg (by decide)]

theorem cstr_no_nul (bytes : List Char) (h : NUL ∉ bytes) : cstr bytes = bytes := by
  unfold cstr
  rw [List.takeWhile_eq_self_iff]
  intro x hx
  have : x ≠ NUL := fun e => h (e ▸ hx)
  simpa using this

/-- Claim C13, the code on names that cannot be opened.  For `x.png` the header is
written with `Content-Length: -1`, the length `get_page` returned, the `write` of the
page with that length fails and the thread ends: no 404 body is sent.  For `x.qif`
nothing at all is written.  Only for a text name such as `x.txt` is the header with
`Content-Length: 58` written, followed by the 404 page. -/
theorem C13_missing_asset :
    (∃ t, process_get_request "GET /x.png HTTP/1.1".toList 9
            (no_assets "GET /x.png HTTP/1.1".toList) (initialise boot) = .exited t
        ∧ t.wire = [(9, page_header (-1))])
    ∧ (∃ t, process_get_request "GET /x.qif HTTP/1.1".toList 9
            (no_assets "GET /x.qif HTTP/1.1".toList) (initialise boot) = .returned () t
        ∧ t.wire = [])
    ∧ (∃ t, process_get_request "GET /x.txt HTTP/1.1".toList 9
            (no_assets "GET /x.txt HTTP/1.1".toList) (initialise boot) = .returned () t
        ∧ t.wire = [(9, page_header 58),
            (9, "<html><head></head><body>404: File not found</body></html>".toList)])
    ∧ page_header (-1) =
        "HTTP/1.1 200 OK\r\nContent-Type: text/html; charset=UTF-8\r\nContent-Length: -1\n\n".toList
    ∧ page_header 58 =
        "HTTP/1.1 200 OK\r\nContent-Type: text/html; charset=UTF-8\r\nContent-Length: 58\n\n".toList
    ∧ error_page.length = 58 := by
  refine ⟨⟨_, rfl, rfl⟩, ⟨_, rfl, rfl⟩, ⟨_, rfl, ?_⟩, by decide, by decide, rfl⟩
  set_option maxRecDepth 4000 in decide

/-- Claim C14, the code on a text asset with a NUL byte: of the four bytes `a`, `b`, NUL,
`c` of `notes.txt`, `expand_page` copies the first two and returns 2, and the body served
is `ab` with `Content-Length: 2`. -/
theorem C14_stops_at_nul :
    expand_page ['a', 'b', NUL, 'c'] = ['a', 'b']
    ∧ ∃ t, process_get_request "GET /notes.txt HTTP/1.1".toList 9
            (one_asset "GET /notes.txt HTTP/1.1".toList) (initialise boot) = .returned () t
        ∧ t.wire = [(9, page_header 2), (9, ['a', 'b'])] := by
  refine ⟨by decide, _, rfl, rfl⟩

/-- Claim C14 as amended.  For every text asset content without a NUL byte, of a length
`n` up to the 39998 bytes `get_page` reads, `expand_page` writes an exact copy of those
`n` bytes into the expanded buffer and returns `n`, and the response to a GET for a text
name that holds this content is the header with `Content-Length: n` followed by exactly
these bytes. -/
theorem C14_text_asset (bytes : List Char) (hnul : NUL ∉ bytes) :
    expand_page bytes = bytes
    ∧ (expand_page bytes).length = bytes.length
    ∧ ∀ (from_browser name : List Char) (fd : Int) (w : World) (s : State),
        0 ≤ fd → get_page_name from_browser = .found name →
        test_tail_string name ".png".toList = some 0 →
        test_tail_string name ".qif".toList = some 0 →
        w.load name = some bytes → bytes.length ≤ 39998 →
        w.header_ok = true → w.body_ok = true →
        process_get_request from_browser fd w s =
          .returned ()
            { s with wire := s.wire ++ [(fd, page_header (bytes.length : Nat))]
                ++ [(fd, bytes)] } := by
  have he : expand_page bytes = bytes := cstr_no_nul bytes hnul
  refine ⟨he, by rw [he], ?_⟩
  intro from_browser name fd w s hfd hname hpng hqif hload hlen hh hb
  rw [process_get_request_text from_browser fd w s name hname hpng hqif, hload]
  dsimp only
  rw [List.take_of_length_le hlen, he, serve_page_eq, if_pos ⟨hfd, hh⟩,
    if_pos ⟨Int.natCast_nonneg _, hb⟩, Int.toNat_ofNat, List.take_length]

/-- Claim C14 as amended, for the text `hello` in `notes.txt`. -/
theorem C14_text_asset_witness :
    NUL ∉ "hello".toList
    ∧ expand_page "hello".toList = "hello".toList
    ∧ (expand_page "hello".toList).length = "hello".toList.length
    ∧ (0 : Int) ≤ 9
    ∧ get_page_name "GET /notes.txt HTTP/1.1".toList = .found "notes.txt".toList
    ∧ test_tail_string "notes.txt".toList ".png".toList = some 0
    ∧ test_tail_string "notes.txt".toList ".qif".toList = some 0
    ∧ (text_asset "GET /notes.txt HTTP/1.1".toList).load "notes.txt".toList
        = some "hello".toList
    ∧ "hello".toList.length ≤ 39998
    ∧ process_get_request "GET /notes.txt HTTP/1.1".toList 9
        (text_asset "GET /notes.txt HTTP/1.1".toList) (initialise boot) =
        .returned ()
          { initialise boot with
            wire := (initialise boot).wire
              ++ [(9, page_header ("hello".toList.length : Nat))] ++ [(9, "hello".toList)] } :=
  ⟨by decide, (C14_text_asset "hello".toList (by decide)).1,
    (C14_text_asset "hello".toList (by decide)).2.1, by decide, rfl, by decide, by decide,
    rfl, by decide,
    (C14_text_asset "hello".toList (by decide)).2.2 "GET /notes.txt HTTP/1.1".toList
      "notes.txt".toList 9 (text_asset "GET /notes.txt HTTP/1.1".toList) (initialise boot)
      (by decide) rfl (by decide) (by decide) rfl (by decide) rfl rfl⟩

/-! ## Request types -/

theorem peek_cons_succ (c : Char) (cs : List Char) (k : Nat) :
    peek (c :: cs) (k + 1) = peek cs k := by
  unfold peek
  simp only [List.length_cons, Nat.add_lt_add_iff_right, List.get?_eq_getElem?,
    List.getElem?_cons_succ, Nat.add_right_cancel_iff]

theorem peek_cons_zero (c : Char) (cs : List Char) : peek (c :: cs) 0 = some c := by
  simp [peek]

theorem peek_nil_zero : peek [] 0 = some NUL := by
  simp [peek]

theorem test_lead_reads_shift (c d : Char) (a b : List Char) :
    ∀ (passes k : Nat),
      test_lead_reads (c :: a) (d :: b) passes (k + 1) = test_lead_reads a b passes k := by
  intro passes
  induction passes with
  | zero => intro k; rfl
  | succ n ih =>
    intro k
    rw [test_lead_reads, test_lead_reads, peek_cons_succ, peek_cons_succ]
    cases peek b k with
    | none => rfl
    | some q =>
      dsimp only
      split
      · rfl
      · cases peek a k with
        | none => rfl
        | some p =>
          dsimp only
          split
          · rfl
          · exact ih (k + 1)

/-- With one pass for every character of `b` and one more, the loop of
`test_lead_string` ends, reads nothing outside the two strings, and returns what
`test_lead_string` gives. -/
theorem test_lead_reads_eq :
    ∀ (b a : List Char), NUL ∉ b →
      test_lead_reads a b (b.length + 1) 0 = some (test_lead_string a b) := by
  intro b
  induction b with
  | nil =>
    intro a _
    rw [test_lead_reads, peek_nil_zero]
    simp [test_lead_string]
  | cons q qs ih =>
    intro a hnul
    have hq : q ≠ NUL := fun e => hnul (by simp [e])
    have hqs : NUL ∉ qs := fun e => hnul (by simp [e])
    rw [test_lead_reads, peek_cons_zero]
    dsimp only
    rw [if_neg hq]
    cases a with
    | nil =>
      rw [peek_nil_zero]
      dsimp only
      rw [if_pos (Ne.symm hq)]
      rfl
    | cons p ps =>
      rw [peek_cons_zero]
      dsimp only
      by_cases hpq : p ≠ q
      · rw [if_pos hpq, test_lead_string, if_pos hpq]
      · rw [if_neg hpq, test_lead_string, if_neg hpq]
        rw [List.length_cons, test_lead_reads_shift]
        exact ih ps hqs

theorem test_lead_string_iff (b : List Char) :
    ∀ a : List Char, test_lead_string a b ≠ 0 ↔ ∃ rest, a = b ++ rest := by
  induction b with
  | nil => intro a; simp [test_lead_string]
  | cons q qs ih =>
    intro a
    cases a with
    | nil => simp [test_lead_string]
    | cons p ps =>
      rw [test_lead_string]
      by_cases hpq : p ≠ q
      · rw [if_pos hpq]
        constructor
        · intro h; exact absurd rfl h
        · rintro ⟨rest, h⟩
          rw [List.cons_append] at h
          exact absurd (List.cons.inj h).1 hpq
      · rw [if_neg hpq, ih ps]
        have hpq2 : p = q := not_not.mp hpq
        constructor
        · rintro ⟨rest, h⟩; exact ⟨rest, by rw [hpq2, h, List.cons_append]⟩
        · rintro ⟨rest, h⟩
          rw [List.cons_append] at h
          exact ⟨rest, (List.cons.inj h).2⟩

/-- Claim C15.  For every request text, also one shorter than four characters,
`get_request_type` returns `REQUEST_GET` exactly when the text begins with the four
characters `GET `, `REQUEST_PUT` exactly when it begins with `PUT `, and
`REQUEST_UNDEFINED` in every other case; and each of its two calls of `test_lead_string`
ends within five passes of its loop without reading past the terminating NUL, with the
result the function is modelled by. -/
theorem C15_request_type (p : List Char) :
    (get_request_type p = REQUEST_GET ↔ ∃ rest, p = "GET ".toList ++ rest)
    ∧ (get_request_type p = REQUEST_PUT ↔ ∃ rest, p = "PUT ".toList ++ rest)
    ∧ (get_request_type p = REQUEST_UNDEFINED ↔
        ¬ (∃ rest, p = "GET ".toList ++ rest) ∧ ¬ (∃ rest, p = "PUT ".toList ++ rest))
    ∧ test_lead_reads p "GET ".toList 5 0 = some (test_lead_string p "GET ".toList)
    ∧ test_lead_reads p "PUT ".toList 5 0 = some (test_lead_string p "PUT ".toList) := by
  have hg := test_lead_string_iff "GET ".toList p
  have hp := test_lead_string_iff "PUT ".toList p
  have hdis : (∃ rest, p = "GET ".toList ++ rest) → ¬ (∃ rest, p = "PUT ".toList ++ rest) := by
    rintro ⟨r1, h1⟩ ⟨r2, h2⟩
    rw [h1] at h2
    exact absurd (List.cons.inj h2).1 (by decide)
  refine ⟨?_, ?_, ?_, test_lead_reads_eq "GET ".toList p (by decide),
    test_lead_reads_eq "PUT ".toList p (by decide)⟩
  · unfold get_request_type
    by_cases h1 : test_lead_string p "GET ".toList ≠ 0
    · rw [if_pos h1]; exact ⟨fun _ => hg.mp h1, fun _ => rfl⟩
    · rw [if_neg h1]
      by_cases h2 : test_lead_string p "PUT ".toList ≠ 0
      · rw [if_pos h2]
        exact ⟨fun e => absurd e (by decide), fun e => absurd (hg.mpr e) h1⟩
      · rw [if_neg h2]
        exact ⟨fun e => absurd e (by decide), fun e => absurd (hg.mpr e) h1⟩
  · unfold get_request_type
    by_cases h1 : test_lead_string p "GET ".toList ≠ 0
    · rw [if_pos h1]
      exact ⟨fun e => absurd e (by decide), fun e => absurd e (hdis (hg.mp h1))⟩
    · rw [if_neg h1]
      by_cases h2 : test_lead_string p "PUT ".toList ≠ 0
      · rw [if_pos h2]; exact ⟨fun _ => hp.mp h2, fun _ => rfl⟩
      · rw [if_neg h2]
        exact ⟨fun e => absurd e (by decide), fun e => absurd (hp.mpr e) h2⟩
  · unfold get_request_type
    by_cases h1 : test_lead_string p "GET ".toList ≠ 0
    · rw [if_pos h1]
      exact ⟨fun e => absurd e (by decide), fun e => absurd (hg.mp h1) e.1⟩
    · rw [if_neg h1]
      by_cases h2 : test_lead_string p "PUT ".toList ≠ 0
      · rw [if_pos h2]
        exact ⟨fun e => absurd e (by decide), fun e => absurd (hp.mp h2) e.2⟩
      · rw [if_neg h2]
        exact ⟨fun _ => ⟨fun e => h1 (hg.mpr e), fun e => h2 (hp.mpr e)⟩, fun _ => rfl⟩

/-- Claim C15 for the texts `GET /`, `PUT /x?b3=1 HTTP/1.1` and `GE`. -/
theorem C15_request_type_witness :
    get_request_type "GET /".toList = REQUEST_GET
    ∧ get_request_type sample_put = REQUEST_PUT
    ∧ get_request_type "GE".toList = REQUEST_UNDEFINED
    ∧ test_lead_reads "GE".toList "GET ".toList 5 0 = some 0 :=
  ⟨(C15_request_type "GET /".toList).1.mpr ⟨"/".toList, rfl⟩,
    (C15_request_type sample_put).2.1.mpr ⟨"/x?b3=1 HTTP/1.1".toList, rfl⟩,
    (C15_request_type "GE".toList).2.2.1.mpr
      ⟨fun ⟨_, h⟩ => absurd (congrArg List.length h) (by simp),
        fun ⟨_, h⟩ => absurd (congrArg List.length h) (by simp)⟩,
    (C15_request_type "GE".toList).2.2.2.1⟩

/-! ## PUT requests: characters that are not the expected digits -/

/-- What `process_put_request` does with the bit character `cb` and the value character
`cv` it finds at the second and fourth place after the first question mark. -/
theorem process_put_request_chars (s : State) (fd : Int) (ack_ok : Bool)
    (pre rest : List Char) (c1 cb c3 cv : Char) (hpre : '?' ∉ pre) :
    process_put_request (pre ++ '?' :: c1 :: cb :: c3 :: cv :: rest) fd ack_ok s =
      if char_sub cv '0' ≠ 0 then
        match shl (char_sub cv '0') (char_sub cb '0') with
        | none => .fault
        | some shifted =>
          put_publish fd ack_ok { s with pif_output := s.pif_output ||| shifted }
      else
        match shl 1 (char_sub cb '0') with
        | none => .fault
        | some mask =>
          put_publish fd ack_ok { s with pif_output := s.pif_output &&& bit_not mask } := by
  have hq := find_query_append pre (c1 :: cb :: c3 :: cv :: rest) hpre 0
  rw [Nat.zero_add] at hq
  unfold process_put_request
  simp only [hq, peek_bit, peek_value]

theorem put_publish_facts (fd : Int) (ack_ok : Bool) (s : State) :
    ∃ s1, (put_publish fd ack_ok s).state = some s1 ∧ s1.pif_output = s.pif_output
      ∧ s1.device = s.pif_output % 256
      ∧ (0 ≤ fd ∧ ack_ok = true →
          put_publish fd ack_ok s = .returned () s1
          ∧ s1.wire = s.wire ++ [(fd, page_header 0)]) := by
  rw [put_publish_eq]
  by_cases h : 0 ≤ fd ∧ ack_ok = true
  · rw [if_pos h]; exact ⟨_, rfl, rfl, rfl, fun _ => ⟨rfl, rfl⟩⟩
  · rw [if_neg h]; exact ⟨_, rfl, rfl, rfl, fun e => absurd e h⟩

theorem shl_one (k : Nat) (hk : k < 32) : shl 1 k = some (2 ^ k) := by
  unfold shl
  rw [if_pos hk, Nat.shiftLeft_eq, Nat.one_mul, Nat.mod_eq_of_lt]
  calc 2 ^ k < 2 ^ 32 := Nat.pow_lt_pow_right (by norm_num) hk
    _ = 4294967296 := by norm_num

theorem testBit_high (p i : Nat) (hp : p < 4294967296) (hi : 32 ≤ i) :
    p.testBit i = false := by
  apply Nat.testBit_lt_two_pow
  calc p < 4294967296 := hp
    _ = 2 ^ 32 := by norm_num
    _ ≤ 2 ^ i := Nat.pow_le_pow_right (by norm_num) hi

theorem testBit_ones (i : Nat) : (4294967295 : Nat).testBit i = decide (i < 32) := by
  rw [show (4294967295 : Nat) = 2 ^ 32 - 1 by norm_num, Nat.testBit_two_pow_sub_one]

theorem testBit_clear (p k i : Nat) (hp : p < 4294967296) (hk : k < 32) :
    (p &&& bit_not (2 ^ k)).testBit i = (p.testBit i && !decide (i = k)) := by
  simp only [bit_not, Nat.testBit_and, Nat.testBit_xor, Nat.testBit_two_pow, testBit_ones]
  by_cases hi32 : i < 32
  · by_cases hik : i = k
    · subst hik; simp [hi32]
    · simp [hi32, hik, Ne.symm hik]
  · have : i ≠ k := by omega
    simp [hi32, this, testBit_high p i hp (by omega)]

theorem testBit_set (p k i : Nat) :
    (p ||| 2 ^ k).testBit i = (p.testBit i || decide (i = k)) := by
  simp only [Nat.testBit_or, Nat.testBit_two_pow]
  by_cases hik : i = k
  · subst hik; simp
  · simp [hik, Ne.symm hik]

/-- A request whose bit character stands for a shift count `k` from 0 to 31 and whose
value character is the digit of `v`, 0 or 1: bit `k` of `pif_output` becomes `v`, every
other bit keeps its value, the register of the device takes the low byte, and the
acknowledgement is written when the write succeeds. -/
theorem put_bit_state (s : State) (fd : Int) (ack_ok : Bool)
    (pre rest : List Char) (c1 cb c3 : Char) (k v : Nat)
    (hp : s.pif_output < 4294967296) (hcb : char_sub cb '0' = k) (hk : k < 32) (hv : v < 2)
    (hpre : '?' ∉ pre) :
    ∃ s1, (process_put_request (pre ++ '?' :: c1 :: cb :: c3 :: digit v :: rest)
              fd ack_ok s).state = some s1
      ∧ (0 ≤ fd ∧ ack_ok = true →
          process_put_request (pre ++ '?' :: c1 :: cb :: c3 :: digit v :: rest) fd ack_ok s
            = .returned () s1
          ∧ s1.wire = s.wire ++ [(fd, page_header 0)])
      ∧ s1.pif_output.testBit k = decide (v = 1)
      ∧ (∀ i, i ≠ k → s1.pif_output.testBit i = s.pif_output.testBit i)
      ∧ s1.device = s1.pif_output % 256 := by
  have hval : char_sub (digit v) '0' = v := by
    interval_cases v <;> rfl
  rw [process_put_request_chars s fd ack_ok pre rest c1 cb c3 (digit v) hpre, hval, hcb]
  interval_cases v
  · rw [if_neg (by decide), shl_one k hk]
    dsimp only
    obtain ⟨s1, h1, h2, h3, h4⟩ := put_publish_facts fd ack_ok
      { s with pif_output := s.pif_output &&& bit_not (2 ^ k) }
    refine ⟨s1, h1, h4, ?_, ?_, by rw [h3, h2]⟩
    · rw [h2, testBit_clear s.pif_output k k hp hk]; simp
    · intro i hi
      rw [h2, testBit_clear s.pif_output k i hp hk]; simp [hi]
  · rw [if_pos (by decide)]
    have hs : shl 1 k = some (2 ^ k) := shl_one k hk
    rw [hs]
    dsimp only
    obtain ⟨s1, h1, h2, h3, h4⟩ := put_publish_facts fd ack_ok
      { s with pif_output := s.pif_output ||| 2 ^ k }
    refine ⟨s1, h1, h4, ?_, ?_, by rw [h3, h2]⟩
    · rw [h2, testBit_set]; simp
    · intro i hi
      rw [h2, testBit_set]; simp [hi]

theorem mod_256_of_bits (a b : Nat) (h : ∀ i, i < 8 → a.testBit i = b.testBit i) :
    a % 256 = b % 256 := by
  apply Nat.eq_of_testBit_eq
  intro i
  rw [show (256 : Nat) = 2 ^ 8 by norm_num, Nat.testBit_mod_two_pow, Nat.testBit_mod_two_pow]
  by_cases hi : i < 8
  · simp [hi, h i hi]
  · simp [hi]

/-- Claim C16, the code on the bit character `8`: the request `PUT /x?b8=1 HTTP/1.1` is
not rejected; the acknowledgement is written and `pif_output` goes from 0 to 256. -/
theorem C16_bit_eight :
    ∃ t, process_put_request "PUT /x?b8=1 HTTP/1.1".toList 7 true (initialise boot)
          = .returned () t
      ∧ (initialise boot).pif_output = 0 ∧ t.pif_output = 256
      ∧ t.wire = [(7, page_header 0)] := by
  exact ⟨_, rfl, rfl, rfl, rfl⟩

/-- Claim C16 as amended.  `process_put_request` does not validate the bit index: for
every PUT whose bit character stands for a number `k` from 8 to 31 (the characters `8`
to `O`) and whose value digit is 0 or 1, the request is processed like any other: the
acknowledgement is written when the write succeeds, bit `k` of `pif_output` becomes the
value, every other bit keeps its prior value, and so does the byte written to the
register of the device. -/
theorem C16_no_validation (s : State) (fd : Int) (ack_ok : Bool)
    (pre rest : List Char) (c1 cb c3 : Char) (k v : Nat)
    (hp : s.pif_output < 4294967296) (hcb : char_sub cb '0' = k) (hlow : 8 ≤ k)
    (hk : k < 32) (hv : v < 2) (hpre : '?' ∉ pre) :
    ∃ s1, (process_put_request (pre ++ '?' :: c1 :: cb :: c3 :: digit v :: rest)
              fd ack_ok s).state = some s1
      ∧ (0 ≤ fd ∧ ack_ok = true →
          process_put_request (pre ++ '?' :: c1 :: cb :: c3 :: digit v :: rest) fd ack_ok s
            = .returned () s1
          ∧ s1.wire = s.wire ++ [(fd, page_header 0)])
      ∧ s1.pif_output.testBit k = decide (v = 1)
      ∧ (∀ i, i ≠ k → s1.pif_output.testBit i = s.pif_output.testBit i)
      ∧ s1.device = s.pif_output % 256 := by
  obtain ⟨s1, h1, h2, h3, h4, h5⟩ :=
    put_bit_state s fd ack_ok pre rest c1 cb c3 k v hp hcb hk hv hpre
  refine ⟨s1, h1, h2, h3, h4, ?_⟩
  rw [h5]
  exact mod_256_of_bits _ _ (fun i hi => h4 i (by omega))

/-- Claim C16 as amended, for the request `PUT /x?b9=1 HTTP/1.1`. -/
theorem C16_no_validation_witness :
    (initialise boot).pif_output < 4294967296 ∧ char_sub '9' '0' = 9 ∧ 8 ≤ 9 ∧ 9 < 32
    ∧ (1 : Nat) < 2 ∧ '?' ∉ "PUT /x".toList
    ∧ ∃ s1, (process_put_request
            ("PUT /x".toList ++ '?' :: 'b' :: '9' :: '=' :: digit 1 :: " HTTP/1.1".toList)
            7 true (initialise boot)).state = some s1
        ∧ (0 ≤ (7 : Int) ∧ true = true →
            process_put_request
              ("PUT /x".toList ++ '?' :: 'b' :: '9' :: '=' :: digit 1 :: " HTTP/1.1".toList)
              7 true (initialise boot) = .returned () s1
            ∧ s1.wire = (initialise boot).wire ++ [(7, page_header 0)])
        ∧ s1.pif_output.testBit 9 = decide (1 = 1)
        ∧ (∀ i, i ≠ 9 → s1.pif_output.testBit i = (initialise boot).pif_output.testBit i)
        ∧ s1.device = (initialise boot).pif_output % 256 :=
  ⟨by decide, by decide, by decide, by decide, by decide, by decide,
    C16_no_validation (initialise boot) 7 true "PUT /x".toList " HTTP/1.1".toList 'b' '9' '='
      9 1 (by decide) (by decide) (by decide) (by decide) (by decide) (by decide)⟩

/-- Claim C17, the code on the value character `3`: the request `PUT /x?b0=3 HTTP/1.1`
names bit 0, and `pif_output` goes from 0 to 3, so that bit 1 changes as well. -/
theorem C17_value_three :
    ∃ t, process_put_request "PUT /x?b0=3 HTTP/1.1".toList 7 true (initialise boot)
          = .returned () t
      ∧ t.pif_output = 3
      ∧ (initialise boot).pif_output.testBit 1 = false ∧ t.pif_output.testBit 1 = true := by
  exact ⟨_, rfl, rfl, rfl, rfl⟩

/-- Claim C17 as amended.  For every prior output value, every bit index `b` from 0 to 7
and every value character `c`: when `c - '0'` is 0 the PUT clears bit `b`; otherwise it
ORs `(c - '0') << b`, wrapped to 32 bits, into the output value.  The output value after
`process_put_request` differs from the prior value in no bit below `b`, and, when the
value character is `0` or `1`, in no bit other than bit `b`. -/
theorem C17_value_is_shifted (s : State) (fd : Int) (ack_ok : Bool)
    (pre rest : List Char) (c1 c3 cv : Char) (b : Nat)
    (hp : s.pif_output < 4294967296) (hb : b < 8) (hpre : '?' ∉ pre) :
    ∃ s1, (process_put_request (pre ++ '?' :: c1 :: digit b :: c3 :: cv :: rest)
              fd ack_ok s).state = some s1
      ∧ s1.pif_output =
          (if char_sub cv '0' = 0 then s.pif_output &&& bit_not (2 ^ b)
           else s.pif_output ||| (char_sub cv '0' <<< b) % 4294967296)
      ∧ (∀ i, i < b → s1.pif_output.testBit i = s.pif_output.testBit i)
      ∧ (cv = '0' ∨ cv = '1' →
          ∀ i, i ≠ b → s1.pif_output.testBit i = s.pif_output.testBit i) := by
  have hbit : char_sub (digit b) '0' = b := by
    interval_cases b <;> rfl
  have hb32 : b < 32 := by omega
  rw [process_put_request_chars s fd ack_ok pre rest c1 (digit b) c3 cv hpre, hbit]
  by_cases hz : char_sub cv '0' = 0
  · rw [if_neg (not_not.mpr hz), shl_one b hb32]
    dsimp only
    obtain ⟨s1, h1, h2, _, _⟩ := put_publish_facts fd ack_ok
      { s with pif_output := s.pif_output &&& bit_not (2 ^ b) }
    refine ⟨s1, h1, by rw [h2, if_pos hz], ?_, ?_⟩
    · intro i hi
      have : i ≠ b := by omega
      rw [h2, testBit_clear s.pif_output b i hp hb32]; simp [this]
    · intro _ i hi
      rw [h2, testBit_clear s.pif_output b i hp hb32]; simp [hi]
  · rw [if_pos hz]
    have hs : shl (char_sub cv '0') b = some ((char_sub cv '0' <<< b) % 4294967296) := by
      unfold shl; rw [if_pos hb32]
    rw [hs]
    dsimp only
    obtain ⟨s1, h1, h2, _, _⟩ := put_publish_facts fd ack_ok
      { s with pif_output := s.pif_output ||| (char_sub cv '0' <<< b) % 4294967296 }
    refine ⟨s1, h1, by rw [h2, if_neg hz], ?_, ?_⟩
    · intro i hi
      rw [h2]
      show (s.pif_output ||| (char_sub cv '0' <<< b) % 4294967296).testBit i = _
      rw [Nat.testBit_or, show (4294967296 : Nat) = 2 ^ 32 by norm_num,
        Nat.testBit_mod_two_pow, Nat.testBit_shiftLeft]
      have : ¬ i ≥ b := by omega
      simp [this]
    · intro hc i hi
      have hone : char_sub cv '0' = 1 := by
        rcases hc with e | e
        · subst e; exact absurd rfl hz
        · subst e; rfl
      rw [h2]
      show (s.pif_output ||| (char_sub cv '0' <<< b) % 4294967296).testBit i = _
      have hpow : (1 <<< b) % 4294967296 = 2 ^ b := by
        have := shl_one b hb32
        unfold shl at this
        rw [if_pos hb32] at this
        exact Option.some.inj this
      rw [hone, hpow, testBit_set]; simp [hi]

/-- Claim C17 as amended, for the request `PUT /x?b2=5 HTTP/1.1`. -/
theorem C17_value_is_shifted_witness :
    (initialise boot).pif_output < 4294967296 ∧ (2 : Nat) < 8 ∧ '?' ∉ "PUT /x".toList
    ∧ ∃ s1, (process_put_request
            ("PUT /x".toList ++ '?' :: 'b' :: digit 2 :: '=' :: '5' :: " HTTP/1.1".toList)
            7 true (initialise boot)).state = some s1
        ∧ s1.pif_output =
            (if char_sub '5' '0' = 0 then (initialise boot).pif_output &&& bit_not (2 ^ 2)
             else (initialise boot).pif_output ||| (char_sub '5' '0' <<< 2) % 4294967296)
        ∧ (∀ i, i < 2 → s1.pif_output.testBit i = (initialise boot).pif_output.testBit i)
        ∧ (('5' : Char) = '0' ∨ ('5' : Char) = '1' →
            ∀ i, i ≠ 2 → s1.pif_output.testBit i = (initialise boot).pif_output.testBit i) :=
  ⟨by decide, by decide, by decide,
    C17_value_is_shifted (initialise boot) 7 true "PUT /x".toList " HTTP/1.1".toList 'b' '='
      '5' 2 (by decide) (by decide) (by decide)⟩

/-- Claim C18, the code on the form of the specification: for `PUT /x?b=3&v1 HTTP/1.1`
the bit character read is `=` and the value character read is `&`; bit 3 stays clear and
`pif_output` goes from 0 to 4294885376, the 32-bit pattern of `-10 << 13`. -/
theorem C18_spec_form :
    ∃ t, process_put_request "PUT /x?b=3&v1 HTTP/1.1".toList 7 true (initialise boot)
          = .returned () t
      ∧ t.pif_output = 4294885376 ∧ t.pif_output.testBit 3 = false
      ∧ char_sub '=' '0' = 13 ∧ char_sub '&' '0' = 4294967286 := by
  exact ⟨_, rfl, rfl, rfl, rfl, rfl⟩

/-- Claim C18 as amended.  For a PUT request whose query string has the bit digit, 0 to
7, as the second character after the question mark and the value digit, 0 or 1, as the
fourth (for example `PUT /x?b3=1 HTTP/1.1`), `process_put_request` extracts that bit
index and that value and sets or clears exactly that output bit.  On the form
`?b=<bit>&v<value>` it reads `=` and `&` in their place and, whatever the two digits are,
ORs the pattern 4294885376 into `pif_output`. -/
theorem C18_fixed_offsets (s : State) (fd : Int) (ack_ok : Bool)
    (pre rest : List Char) (b v : Nat)
    (hp : s.pif_output < 4294967296) (hb : b < 8) (hv : v < 2) (hpre : '?' ∉ pre) :
    (∀ c1 c3 : Char,
      ∃ s1, (process_put_request (pre ++ '?' :: c1 :: digit b :: c3 :: digit v :: rest)
                fd ack_ok s).state = some s1
        ∧ s1.pif_output.testBit b = decide (v = 1)
        ∧ ∀ i, i ≠ b → s1.pif_output.testBit i = s.pif_output.testBit i)
    ∧ ∃ s1, (process_put_request
              (pre ++ '?' :: 'b' :: '=' :: digit b :: '&' :: 'v' :: digit v :: rest)
              fd ack_ok s).state = some s1
        ∧ s1.pif_output = s.pif_output ||| 4294885376 := by
  have hbit : char_sub (digit b) '0' = b := by
    interval_cases b <;> rfl
  constructor
  · intro c1 c3
    obtain ⟨s1, h1, _, h3, h4, _⟩ :=
      put_bit_state s fd ack_ok pre rest c1 (digit b) c3 b v hp hbit (by omega) hv hpre
    exact ⟨s1, h1, h3, h4⟩
  · rw [process_put_request_chars s fd ack_ok pre ('v' :: digit v :: rest) 'b' '=' (digit b)
      '&' hpre]
    have hs : shl (char_sub '&' '0') (char_sub '=' '0') = some 4294885376 := by decide
    rw [if_pos (by decide), hs]
    dsimp only
    obtain ⟨s1, h1, h2, _, _⟩ := put_publish_facts fd ack_ok
      { s with pif_output := s.pif_output ||| 4294885376 }
    exact ⟨s1, h1, h2⟩

/-- Claim C18 as amended, for bit 3 and value 1: `PUT /x?b3=1 HTTP/1.1` and
`PUT /x?b=3&v1 HTTP/1.1`. -/
theorem C18_fixed_offsets_witness :
    (initialise boot).pif_output < 4294967296 ∧ (3 : Nat) < 8 ∧ (1 : Nat) < 2
    ∧ '?' ∉ "PUT /x".toList
    ∧ (∃ s1, (process_put_request
            ("PUT /x".toList ++ '?' :: 'b' :: digit 3 :: '=' :: digit 1 :: " HTTP/1.1".toList)
            7 true (initialise boot)).state = some s1
        ∧ s1.pif_output.testBit 3 = decide (1 = 1)
        ∧ ∀ i, i ≠ 3 → s1.pif_output.testBit i = (initialise boot).pif_output.testBit i)
    ∧ ∃ s1, (process_put_request
            ("PUT /x".toList ++ '?' :: 'b' :: '=' :: digit 3 :: '&' :: 'v' :: digit 1
              :: " HTTP/1.1".toList)
            7 true (initialise boot)).state = some s1
        ∧ s1.pif_output = (initialise boot).pif_output ||| 4294885376 :=
  ⟨by decide, by decide, by decide, by decide,
    (C18_fixed_offsets (initialise boot) 7 true "PUT /x".toList " HTTP/1.1".toList 3 1
      (by decide) (by decide) (by decide) (by decide)).1 'b' '=',
    (C18_fixed_offsets (initialise boot) 7 true "PUT /x".toList " HTTP/1.1".toList 3 1
      (by decide) (by decide) (by decide) (by decide)).2⟩

/-! ## Before the first PUT -/

theorem step_unprocessed (e : Ev) (he : e.unprocessed) (s t : State)
    (h : step e s = some t) (hs : ∀ j, s.event_waiting j = false) :
    ∀ j, t.event_waiting j = false := by
  cases e with
  | put r g a =>
    have h0 : (thread_end g (process_put_request r g a s)).state = some t := h
    have hno : ¬ (0 ≤ g ∧ a = true) := he
    rcases process_put_request_cases r g a s with hf | ⟨p, hp⟩
    · rw [hf] at h0; cases h0
    · rw [hp, put_publish_eq, if_neg hno] at h0
      cases h0
      exact hs
  | register g => cases h; exact hs
  | unregister g => cases h; exact hs
  | tick g input ok =>
    have h0 : ((send_events_pass g input ok s).unwinding (unregister_event_stream g)).state
        = some t := h
    rw [send_events_pass_eq, compose_event_eq] at h0
    intro j
    split at h0 <;> cases h0
    · show (if s.event_stream j = g then false else s.event_waiting j) = false
      split
      · rfl
      · exact hs j
    · show (if s.event_stream j = g then false else s.event_waiting j) = false
      split
      · rfl
      · exact hs j

theorem run_unprocessed :
    ∀ (l : List Ev), (∀ e ∈ l, e.unprocessed) → ∀ s t : State, run l s = some t →
      (∀ j, s.event_waiting j = false) → ∀ j, t.event_waiting j = false := by
  intro l
  induction l with
  | nil => intro _ s t h hs; cases h; exact hs
  | cons e rest ih =>
    intro hl s t h hs
    rw [run] at h
    cases hstep : step e s with
    | none => rw [hstep] at h; cases h
    | some u =>
      rw [hstep] at h
      exact ih (fun e he => hl e (by simp [he])) u t h
        (step_unprocessed e (hl e (by simp)) s u hstep hs)

theorem step_no_put (e : Ev) (he : e.no_put) (s : State) : ∃ t, step e s = some t := by
  cases e with
  | put r g a => exact absurd he (by simp [Ev.no_put])
  | register g => exact ⟨_, rfl⟩
  | unregister g => exact ⟨_, rfl⟩
  | tick g input ok =>
    show ∃ t, ((send_events_pass g input ok s).unwinding (unregister_event_stream g)).state
      = some t
    rw [send_events_pass_eq]
    split
    · exact ⟨_, rfl⟩
    · exact ⟨_, rfl⟩

theorem run_no_put :
    ∀ (l : List Ev), (∀ e ∈ l, e.no_put) → ∀ s : State, ∃ t, run l s = some t := by
  intro l
  induction l with
  | nil => intro _ s; exact ⟨s, rfl⟩
  | cons e rest ih =>
    intro hl s
    obtain ⟨u, hu⟩ := step_no_put e (hl e (by simp)) s
    obtain ⟨t, ht⟩ := ih (fun e he => hl e (by simp [he])) u
    exact ⟨t, by rw [run, hu]; exact ht⟩

theorem lsb_first_text_length (n : Nat) : (lsb_first_text n).length = 8 := by
  simp [lsb_first_text]

/-- Claim C20.  Start from the state `initialise` establishes and let the threads make
any steps among which no PUT is processed (registrations, deregistrations, passes of
event loops with either outcome, PUTs whose acknowledgement is not written).  In every
state reached, every dirty flag is clear and the event text `send_events` composes for
any connection has no output segment: it is exactly `event: piface\ndata: `, the 8
input characters and two newlines, 30 characters.  Steps without any PUT always reach a
state. -/
theorem C20_no_output_before_put (s0 : State) (l : List Ev) (hl : ∀ e ∈ l, e.unprocessed) :
    (∀ t, run l (initialise s0) = some t →
      (∀ j, t.event_waiting j = false)
      ∧ ∀ (fd : Int) (input : Nat),
          (compose_event fd input t).2 =
            "event: piface\ndata: ".toList ++ lsb_first_text input ++ "\n\n".toList
          ∧ (compose_event fd input t).2.length = 30)
    ∧ ((∀ e ∈ l, e.no_put) → ∃ t, run l (initialise s0) = some t) := by
  refine ⟨?_, fun h => run_no_put l h (initialise s0)⟩
  intro t ht
  have hflags := run_unprocessed l hl (initialise s0) t ht (fun _ => rfl)
  refine ⟨hflags, fun fd input => ?_⟩
  have htext : (compose_event fd input t).2 =
      "event: piface\ndata: ".toList ++ lsb_first_text input ++ "\n\n".toList := by
    rw [compose_event_eq, dirty_count_zero fd t (fun j _ => hflags j)]
    simp only [copies, List.append_nil]
    rfl
  refine ⟨htext, ?_⟩
  rw [htext, List.length_append, List.length_append, lsb_first_text_length]
  rfl

/-- Claim C20 for two subscribers, one pass each, and a PUT whose acknowledgement
fails. -/
theorem C20_no_output_before_put_witness :
    (∀ e ∈ quiet_steps, e.unprocessed)
    ∧ run quiet_steps (initialise boot) = some quiet_start
    ∧ (∀ j, quiet_start.event_waiting j = false)
    ∧ (compose_event 5 3 quiet_start).2 =
        "event: piface\ndata: ".toList ++ lsb_first_text 3 ++ "\n\n".toList
    ∧ (compose_event 5 3 quiet_start).2.length = 30 :=
  ⟨by simp [Ev.unprocessed, quiet_steps], rfl,
    ((C20_no_output_before_put boot quiet_steps
        (by simp [Ev.unprocessed, quiet_steps])).1 quiet_start rfl).1,
    (((C20_no_output_before_put boot quiet_steps
        (by simp [Ev.unprocessed, quiet_steps])).1 quiet_start rfl).2 5 3).1,
    (((C20_no_output_before_put boot quiet_steps
        (by simp [Ev.unprocessed, quiet_steps])).1 quiet_start rfl).2 5 3).2⟩

/-! ## The size of an event text -/

theorem copies_length (k : Nat) (t : List Char) : (copies k t).length = k * t.length := by
  induction k with
  | zero => simp [copies]
  | succ k ih => rw [copies, List.length_append, ih]; ring

theorem output_text_length (s : State) : (output_text s).length = 8 := by
  simp [output_text, bit_indices]

theorem dirty_count_le (fd : Int) (s : State) : dirty_count fd s ≤ 10 := by
  unfold dirty_count
  exact le_trans (List.countP_le_length _) (by simp [slot_indices])

theorem compose_event_length (fd : Int) (input : Nat) (s : State) :
    (compose_event fd input s).2.length = 20 + 8 + 8 * dirty_count fd s + 2 := by
  rw [compose_event_eq]
  simp only [List.length_append, copies_length, output_text_length, lsb_first_text_length]
  have h1 : event_lead.length = 20 := rfl
  have h2 : event_tail.length = 2 := rfl
  rw [h1, h2]; ring

/-- Claim C24.  For every state of the registry, also one where the same handle is held
by several slots, every input value and every connection handle, the event text
`send_events` composes in one pass has 20 + 8 + 8 times the number of slots that hold the
handle with their flag set + 2 characters, which is at most 20 + 8 + 8 * 10 + 2 = 110;
with its terminating NUL it fits in the 200 characters of `event`. -/
theorem C24_event_fits_buffer (s : State) (fd : Int) (input : Nat) :
    (compose_event fd input s).2.length = 20 + 8 + 8 * dirty_count fd s + 2
    ∧ (compose_event fd input s).2.length ≤ 20 + 8 + 8 * 10 + 2
    ∧ (compose_event fd input s).2.length ≤ 110
    ∧ (compose_event fd input s).2.length + 1 ≤ 200 := by
  have h := compose_event_length fd input s
  have hle := dirty_count_le fd s
  refine ⟨h, ?_, ?_, ?_⟩ <;> omega

/-- Claim C24 at its largest: when all 10 slots hold the handle 5 with their flags set,
the event text for 5 has 110 characters. -/
theorem C24_event_fits_buffer_witness :
    (compose_event 5 3 all_slots_same).2.length = 110
    ∧ (compose_event 5 3 all_slots_same).2.length + 1 ≤ 200 :=
  ⟨by decide, (C24_event_fits_buffer all_slots_same 5 3).2.2.2⟩

/-! ## The master output string while a flag is set -/

theorem master_loop_binary (p : Nat) (out : Fin 8 → Char) (i : Fin 8) :
    master_loop p bit_indices 1 out i = '0' ∨ master_loop p bit_indices 1 out i = '1' := by
  rw [master_loop_eq]
  dsimp only
  split
  · exact Or.inr rfl
  · exact Or.inl rfl

theorem flagged_of_same (s t : State) (hout : t.output = s.output)
    (hflags : ∀ j, t.event_waiting j = true → s.event_waiting j = true)
    (h : flagged_is_binary s) : flagged_is_binary t := by
  intro ⟨j, hj⟩ i
  rw [hout]
  exact h ⟨j, hflags j hj⟩ i

theorem step_flagged (e : Ev) (s t : State) (h : step e s = some t)
    (hs : flagged_is_binary s) : flagged_is_binary t := by
  cases e with
  | put r g a =>
    have h0 : (thread_end g (process_put_request r g a s)).state = some t := h
    rcases process_put_request_cases r g a s with hf | ⟨p, hp⟩
    · rw [hf] at h0; cases h0
    · rw [hp, put_publish_eq] at h0
      split at h0
      · cases h0
        intro _ i
        exact master_loop_binary p s.output i
      · cases h0
        exact flagged_of_same s _ rfl (fun _ hj => hj) hs
  | register g =>
    cases h; exact flagged_of_same s _ rfl (fun _ hj => hj) hs
  | unregister g =>
    cases h; exact flagged_of_same s _ rfl (fun _ hj => hj) hs
  | tick g input ok =>
    have h0 : ((send_events_pass g input ok s).unwinding (unregister_event_stream g)).state
        = some t := h
    have hclear : ∀ j, (if s.event_stream j = g then false else s.event_waiting j) = true →
        s.event_waiting j = true := by
      intro j hj
      split at hj
      · cases hj
      · exact hj
    rw [send_events_pass_eq, compose_event_eq] at h0
    split at h0 <;> cases h0
    · exact flagged_of_same s _ rfl hclear hs
    · exact flagged_of_same s _ rfl hclear hs

theorem run_flagged :
    ∀ (l : List Ev) (s t : State), run l s = some t → flagged_is_binary s →
      flagged_is_binary t := by
  intro l
  induction l with
  | nil => intro s t h hs; cases h; exact hs
  | cons e rest ih =>
    intro s t h hs
    rw [run] at h
    cases hstep : step e s with
    | none => rw [hstep] at h; cases h
    | some u =>
      rw [hstep] at h
      exact ih u t h (step_flagged e s u hstep hs)

theorem dirty_count_flag (fd : Int) (s : State) (h : 0 < dirty_count fd s) :
    ∃ j, s.event_waiting j = true := by
  unfold dirty_count at h
  rw [List.countP_pos_iff] at h
  obtain ⟨j, _, hj⟩ := h
  refine ⟨j, ?_⟩
  simp only [Bool.and_eq_true] at hj
  exact hj.2

/-- Claim C25.  In every state reached from the one `initialise` establishes through any
sequence of PUTs (acknowledged or not), registrations, deregistrations and passes of
event loops, if the dirty flag of any slot is set then each of the 8 characters of the
master output string is `0` or `1`; so whenever the event text composed for a connection
carries output segments, every character of each segment is a binary digit. -/
theorem C25_flagged_output_is_binary (s0 : State) (l : List Ev) (t : State)
    (hrun : run l (initialise s0) = some t) :
    ((∃ j, t.event_waiting j = true) → ∀ i : Fin 8, t.output i = '0' ∨ t.output i = '1')
    ∧ ∀ (fd : Int) (input : Nat),
        (compose_event fd input t).2 =
          "event: piface\ndata: ".toList ++ lsb_first_text input
            ++ copies (dirty_count fd t) (output_text t) ++ "\n\n".toList
        ∧ (0 < dirty_count fd t → ∀ c ∈ output_text t, c = '0' ∨ c = '1') := by
  have hinit : flagged_is_binary (initialise s0) := by
    intro ⟨j, hj⟩
    exact absurd hj (by simp [initialise])
  have ht := run_flagged l (initialise s0) t hrun hinit
  refine ⟨ht, fun fd input => ⟨?_, ?_⟩⟩
  · rw [compose_event_eq]; rfl
  · intro hpos c hc
    have hb := ht (dirty_count_flag fd t hpos)
    unfold output_text at hc
    obtain ⟨i, _, hi⟩ := List.mem_map.mp hc
    rw [← hi]
    exact hb i

/-- Claim C25 for steps of every kind, after which a flag is set and the master output
string is `00010000`. -/
theorem C25_flagged_output_is_binary_witness :
    run mixed_steps (initialise boot) = some mixed_state
    ∧ (∃ j, mixed_state.event_waiting j = true)
    ∧ (∀ i : Fin 8, mixed_state.output i = '0' ∨ mixed_state.output i = '1')
    ∧ output_text mixed_state = "00010000".toList
    ∧ mixed_state.pif_output = 9 :=
  ⟨rfl, ⟨2, rfl⟩,
    (C25_flagged_output_is_binary boot mixed_steps mixed_state rfl).1 ⟨2, rfl⟩,
    by decide, rfl⟩

/-! ## Malformed PUT requests -/

theorem find_query_none (from_browser : List Char) (h : '?' ∉ from_browser) (k : Nat) :
    find_query from_browser k = none := by
  induction from_browser generalizing k with
  | nil => rfl
  | cons c cs ih =>
    have hc : c ≠ '?' := fun e => h (by simp [e])
    have hcs : '?' ∉ cs := fun e => h (by simp [e])
    rw [find_query, if_pos hc, ih hcs]

/-- A request without a question mark: the first loop of `process_put_request` walks over
the terminating NUL and reads outside the request. -/
theorem process_put_request_no_query (from_browser : List Char) (fd : Int) (ack_ok : Bool)
    (s : State) (h : '?' ∉ from_browser) :
    process_put_request from_browser fd ack_ok s = .fault := by
  unfold process_put_request
  rw [find_query_none from_browser h 0]

/-- Claim C21, the code on malformed requests.  For `PUT /index.html HTTP/1.1`, which has
no question mark, the loop that looks for it leaves the request text; for `PUT /xy?b3`
the value character is read two places after the terminating NUL.  For `PUT /xy?b3=`,
with three characters after the question mark, the terminating NUL itself is taken for
the value character: the request is acknowledged, `pif_output` goes from 0 to the
pattern of `-48 << 3`, the device is written 128, the master output string becomes
`00000001` and every dirty flag is set. -/
theorem C21_malformed_put :
    find_query "PUT /index.html HTTP/1.1".toList 0 = none
    ∧ process_put_request "PUT /index.html HTTP/1.1".toList 7 true (initialise boot) = .fault
    ∧ process_put_request "PUT /xy?b3".toList 7 true (initialise boot) = .fault
    ∧ peek "PUT /xy?b3=".toList 11 = some NUL
    ∧ ∃ t, process_put_request "PUT /xy?b3=".toList 7 true (initialise boot) = .returned () t
        ∧ (initialise boot).pif_output = 0 ∧ t.pif_output = 4294966912 ∧ t.device = 128
        ∧ t.wire = [(7, page_header 0)]
        ∧ (∀ j, t.event_waiting j = true)
        ∧ output_text t = "00000001".toList := by
  refine ⟨rfl, rfl, rfl, by decide, _, rfl, rfl, rfl, rfl, rfl, fun _ => rfl, by decide⟩

/-! ## Connections that come after a PUT -/

/-- Claim C22, the code when a slot is taken over.  Subscriber 5 holds slot 0, a PUT sets
bit 3 and every dirty flag, the next pass of 5 clears the flag of slot 0, a failing pass
ends 5, and connection 6 registers into slot 0, with no further PUT: the flag of its
slot is clear and the first event text composed for 6 has no output segment, although the
output value is 8. -/
theorem C22_slot_taken_over :
    run takeover_steps (initialise boot) = some takeover_state
    ∧ takeover_state.event_stream 0 = 6
    ∧ (∀ j, takeover_state.event_stream j = 6 → j = 0)
    ∧ takeover_state.event_waiting 0 = false
    ∧ takeover_state.pif_output = 8
    ∧ output_text takeover_state = "00010000".toList
    ∧ (compose_event 6 0 takeover_state).2 = "event: piface\ndata: 00000000\n\n".toList := by
  refine ⟨rfl, rfl, by decide, rfl, rfl, by decide, by decide⟩

/-! ## Reads of `test_tail_string` -/

/-- What the backward loop of `test_tail_string` gives: 1 when the characters of `b` are
all met in `a`, nothing when `a` runs out first while every character matched, so that
the loop reads before the start of `a`. -/
theorem test_tail_loop_eq :
    ∀ (ra rb : List Char), rb ≠ [] →
      (test_tail_loop ra rb = some 1 ↔ ∃ t, ra = rb ++ t)
      ∧ (test_tail_loop ra rb = none ↔ ∃ t, t ≠ [] ∧ rb = ra ++ t) := by
  intro ra
  induction ra with
  | nil =>
    intro rb hrb
    cases rb with
    | nil => exact absurd rfl hrb
    | cons y rest =>
      rw [test_tail_loop]
      constructor
      · constructor
        · intro h; cases h
        · rintro ⟨t, h⟩; cases h
      · constructor
        · intro _; exact ⟨y :: rest, by simp, rfl⟩
        · intro _; rfl
  | cons x ra ih =>
    intro rb hrb
    cases rb with
    | nil => exact absurd rfl hrb
    | cons y rest =>
      cases rest with
      | nil =>
        rw [test_tail_loop]
        by_cases hxy : x ≠ y
        · rw [if_pos hxy]
          constructor
          · constructor
            · intro h; cases h
            · rintro ⟨t, h⟩
              exact absurd (List.cons.inj h).1 hxy
          · constructor
            · intro h; cases h
            · rintro ⟨t, ht, h⟩
              have h2 : [] = ra ++ t := (List.cons.inj h).2
              have h3 : t = [] := (List.append_eq_nil.mp h2.symm).2
              exact absurd h3 ht
        · rw [if_neg hxy]
          have hxy2 : x = y := not_not.mp hxy
          constructor
          · constructor
            · intro _; exact ⟨ra, by rw [hxy2]; rfl⟩
            · intro _; rfl
          · constructor
            · intro h; cases h
            · rintro ⟨t, ht, h⟩
              have h2 : [] = ra ++ t := (List.cons.inj h).2
              have h3 : t = [] := (List.append_eq_nil.mp h2.symm).2
              exact absurd h3 ht
      | cons y2 rb =>
        rw [test_tail_loop]
        by_cases hxy : x ≠ y
        · rw [if_pos hxy]
          constructor
          · constructor
            · intro h; cases h
            · rintro ⟨t, h⟩
              exact absurd (List.cons.inj h).1 hxy
          · constructor
            · intro h; cases h
            · rintro ⟨t, _, h⟩
              exact absurd (List.cons.inj h).1.symm hxy
        · rw [if_neg hxy]
          have hxy2 : x = y := not_not.mp hxy
          obtain ⟨h1, h2⟩ := ih (y2 :: rb) (by simp)
          constructor
          · rw [h1]
            constructor
            · rintro ⟨t, h⟩; exact ⟨t, by rw [hxy2, h]; rfl⟩
            · rintro ⟨t, h⟩; exact ⟨t, (List.cons.inj h).2⟩
          · rw [h2]
            constructor
            · rintro ⟨t, ht, h⟩; exact ⟨t, ht, by rw [hxy2, h]; rfl⟩
            · rintro ⟨t, ht, h⟩; exact ⟨t, ht, (List.cons.inj h).2⟩

/-- The reads of `test_tail_string (a, b)` stay inside `a` unless `a` is a proper suffix
of `b`: the result is nothing exactly when `b` is `a` with at least one character in
front, and 1 exactly when `b` is a suffix of `a`. -/
theorem test_tail_string_eq (a b : List Char) (hb : b ≠ []) :
    (test_tail_string a b = some 1 ↔ ∃ x, a = x ++ b)
    ∧ (test_tail_string a b = none ↔ ∃ x, x ≠ [] ∧ b = x ++ a) := by
  have hrb : b.reverse ≠ [] := fun e => hb (List.reverse_eq_nil_iff.mp e)
  have hdef : test_tail_string a b = test_tail_loop a.reverse b.reverse := by
    unfold test_tail_string
    cases b with
    | nil => exact absurd rfl hb
    | cons _ _ => rfl
  obtain ⟨h1, h2⟩ := test_tail_loop_eq a.reverse b.reverse hrb
  rw [hdef]
  constructor
  · rw [h1]
    constructor
    · rintro ⟨t, h⟩
      refine ⟨t.reverse, ?_⟩
      have := congrArg List.reverse h
      rwa [List.reverse_reverse, List.reverse_append, List.reverse_reverse] at this
    · rintro ⟨x, h⟩
      exact ⟨x.reverse, by rw [h, List.reverse_append]⟩
  · rw [h2]
    constructor
    · rintro ⟨t, ht, h⟩
      refine ⟨t.reverse, fun e => ht (List.reverse_eq_nil_iff.mp e), ?_⟩
      have := congrArg List.reverse h
      rwa [List.reverse_reverse, List.reverse_append, List.reverse_reverse] at this
    · rintro ⟨x, hx, h⟩
      exact ⟨x.reverse, fun e => hx (List.reverse_eq_nil_iff.mp e),
        by rw [h, List.reverse_append]⟩

/-- Claim C23, the code on a name shorter than the extension.  For the page name `png`
tested against `.png` the three characters match from the end, `q` is not yet at the
start of `b`, and `p` is moved before the start of `a`: the next `*p` reads outside the
page name, so the call has no defined result, and neither has the GET for `/png` that
makes it.  The names `x.png` and `xpng`, at least as long as the extension, give 1
and 0. -/
theorem C23_reads_before_start :
    test_tail_string "png".toList ".png".toList = none
    ∧ test_tail_loop "png".toList.reverse ".png".toList.reverse = none
    ∧ get_page_name "GET /png HTTP/1.1".toList = .found "png".toList
    ∧ process_get_request "GET /png HTTP/1.1".toList 9
        (no_assets "GET /png HTTP/1.1".toList) (initialise boot) = .fault
    ∧ test_tail_string "x.png".toList ".png".toList = some 1
    ∧ test_tail_string "xpng".toList ".png".toList = some 0 := by
  refine ⟨by decide, by decide, rfl, rfl, by decide, by decide⟩

end PiFace
